import Mathlib

/-! Verification development for the real-time group-chat connection manager
    of the groups backend (websocket_manager.py / websocket_routes.py).

    Embedding choices:
    * Python dicts are association lists with unique keys and insertion
      order; Python sets are duplicate-free lists.
    * WebSocket handles are opaque naturals.
    * The transport environment is a function `phi : Nat -> Bool` marking
      each connection handle dead (`true` = a send to it raises) or live
      (`false` = a send to it succeeds).
    * Every outbound send attempt, failed send and database call is
      recorded in a trace; timestamps come from a logical server clock in
      the state, rendered by `isoformat` (datetime.utcnow().isoformat()
      yields an ISO-8601 string; the exact rendering is irrelevant, only
      that the value is a JSON string, not a number).
-/

namespace GroupChat

/-- Inbound JSON values (client-controlled payloads) as produced by
    json.loads: strings, numbers, objects, null. -/
inductive InVal : Type
| str (s : String)
| num (n : Nat)
| dict (fields : List (String × InVal))
| null

/-- Values of the outbound event dictionaries built by the manager:
    string fields, numeric fields, and embedded payload dictionaries
    passed through from the database layer (stored messages, profiles). -/
inductive FVal : Type
| str (s : String)
| nat (n : Nat)
| payload (p : InVal)

/-- An outbound event: the dict passed to json.dumps / send_json. -/
def Msg : Type := List (String × FVal)

/- ------------------------------------------------------------------ -/
/- Association-list primitives (Python dict operations).              -/
/- ------------------------------------------------------------------ -/

/-- Python `d[k]` / `d.get(k)`: first binding of the key. -/
def lookupL {α β : Type} [DecidableEq α] : List (α × β) → α → Option β
| [], _ => none
| (k, v) :: t, k' => if k' = k then some v else lookupL t k'

/-- Python `d[k] = v`: replace the binding if the key is present,
    otherwise append a fresh binding (insertion order). -/
def setKey {α β : Type} [DecidableEq α] : List (α × β) → α → β → List (α × β)
| [], k, v => [(k, v)]
| (k0, v0) :: t, k, v => if k = k0 then (k0, v) :: t else (k0, v0) :: setKey t k v

/-- Python `del d[k]` / `d.pop(k, None)` (key-removal part). -/
def eraseKey {α β : Type} [DecidableEq α] : List (α × β) → α → List (α × β)
| [], _ => []
| (k0, v0) :: t, k => if k = k0 then t else (k0, v0) :: eraseKey t k

/-- Python `s.add(a)` on a set embedded as a duplicate-free list. -/
def addElem {α : Type} [DecidableEq α] (l : List α) (a : α) : List α :=
  if a ∈ l then l else l ++ [a]

/-- The keys of a dict are pairwise distinct (intrinsic to Python dicts). -/
def keysNodup {α β : Type} (m : List (α × β)) : Prop := (m.map Prod.fst).Nodup

instance {α β : Type} [DecidableEq α] (m : List (α × β)) : Decidable (keysNodup m) :=
  List.nodupDecidable _

/- ------------------------------------------------------------------ -/
/- Outbound event constructors (websocket_manager.py).                -/
/- ------------------------------------------------------------------ -/

/-- Rendering of datetime.utcnow().isoformat() at logical time `t`:
    an ISO-8601 STRING.  Only its stringhood matters to the claims. -/
def isoformat (t : Nat) : String := "1970-01-01T00:00:" ++ toString t

/-- connect: the "user_online" event (lines 37-41). -/
def userOnlineMsg (u : String) (t : Nat) : Msg :=
  [("type", FVal.str "user_online"), ("user_id", FVal.str u),
   ("timestamp", FVal.str (isoformat t))]

/-- disconnect: the "user_offline" event (lines 64-68). -/
def userOfflineMsg (u : String) (t : Nat) : Msg :=
  [("type", FVal.str "user_offline"), ("user_id", FVal.str u),
   ("timestamp", FVal.str (isoformat t))]

/-- broadcast_message: the "new_message" event (lines 114-118). -/
def newMessageMsg (p : InVal) (t : Nat) : Msg :=
  [("type", FVal.str "new_message"), ("message", FVal.payload p),
   ("timestamp", FVal.str (isoformat t))]

/-- broadcast_message_edit (lines 122-127): note the field is named
    "edited_at", not "timestamp". -/
def messageEditedMsg (mid content : String) (t : Nat) : Msg :=
  [("type", FVal.str "message_edited"), ("message_id", FVal.str mid),
   ("content", FVal.str content), ("edited_at", FVal.str (isoformat t))]

/-- broadcast_message_delete (lines 131-135). -/
def messageDeletedMsg (mid : String) (t : Nat) : Msg :=
  [("type", FVal.str "message_deleted"), ("message_id", FVal.str mid),
   ("timestamp", FVal.str (isoformat t))]

/-- set_typing: the "typing_start" event (lines 144-149). -/
def typingStartMsg (u name : String) (t : Nat) : Msg :=
  [("type", FVal.str "typing_start"), ("user_id", FVal.str u),
   ("user_name", FVal.str name), ("timestamp", FVal.str (isoformat t))]

/-- clear_typing: the "typing_stop" event (lines 157-161). -/
def typingStopMsg (u : String) (t : Nat) : Msg :=
  [("type", FVal.str "typing_stop"), ("user_id", FVal.str u),
   ("timestamp", FVal.str (isoformat t))]

/-- broadcast_member_joined (lines 165-169). -/
def memberJoinedMsg (userData : InVal) (t : Nat) : Msg :=
  [("type", FVal.str "member_joined"), ("user", FVal.payload userData),
   ("timestamp", FVal.str (isoformat t))]

/-- broadcast_member_left (lines 173-177). -/
def memberLeftMsg (u : String) (t : Nat) : Msg :=
  [("type", FVal.str "member_left"), ("user_id", FVal.str u),
   ("timestamp", FVal.str (isoformat t))]

/-- broadcast_reaction (lines 192-199). -/
def reactionUpdateMsg (mid emoji uid action : String) (t : Nat) : Msg :=
  [("type", FVal.str "reaction_update"), ("message_id", FVal.str mid),
   ("emoji", FVal.str emoji), ("user_id", FVal.str uid),
   ("action", FVal.str action), ("timestamp", FVal.str (isoformat t))]

/-- broadcast_pin (lines 209-214). -/
def pinMsg (mid : String) (isPinned : Bool) (uid : String) (t : Nat) : Msg :=
  [("type", FVal.str (if isPinned then "message_pinned" else "message_unpinned")),
   ("message_id", FVal.str mid), ("pinned_by", FVal.str uid),
   ("timestamp", FVal.str (isoformat t))]

/-- broadcast_poll (lines 218-222): type is "poll_" ++ action. -/
def pollMsg (pollData : InVal) (action : String) (t : Nat) : Msg :=
  [("type", FVal.str ("poll_" ++ action)), ("poll", FVal.payload pollData),
   ("timestamp", FVal.str (isoformat t))]

/-- broadcast_poll_vote (lines 226-231). -/
def pollVoteMsg (pid uid : String) (t : Nat) : Msg :=
  [("type", FVal.str "poll_vote"), ("poll_id", FVal.str pid),
   ("user_id", FVal.str uid), ("timestamp", FVal.str (isoformat t))]

/-- broadcast_read (lines 235-240). -/
def messageReadMsg (mid uid : String) (t : Nat) : Msg :=
  [("type", FVal.str "message_read"), ("message_id", FVal.str mid),
   ("user_id", FVal.str uid), ("timestamp", FVal.str (isoformat t))]

/-- broadcast_mention (lines 249-253). -/
def mentionMsg (mid : String) (t : Nat) : Msg :=
  [("type", FVal.str "mention"), ("message_id", FVal.str mid),
   ("timestamp", FVal.str (isoformat t))]

/-- The pong reply (websocket_routes.py line 151): no timestamp. -/
def pongMsg : Msg := [("type", FVal.str "pong")]

/- ------------------------------------------------------------------ -/
/- Manager state, trace, jobs.                                        -/
/- ------------------------------------------------------------------ -/

/-- The ConnectionManager's mutable state (websocket_manager.py 15-23)
    plus the logical server clock used for timestamps. -/
structure MState : Type where
  group_connections : List (String × List Nat)
  connection_info : List (Nat × (String × String))
  typing_users : List (String × List String)
  clock : Nat

/-- The empty manager (`ConnectionManager()` at import time). -/
def initState : MState := ⟨[], [], [], 0⟩

/-- Observable effects: outbound send attempts, database calls, and the
    task blocking forever on the manager's non-reentrant asyncio.Lock
    (after a deadlock entry nothing further ever happens). -/
inductive TraceEntry : Type
| sent (conn : Nat) (msg : Msg)
| failed (conn : Nat) (msg : Msg)
| dbSend (group user content : String) (message_type reply_to : InVal)
| dbMarkRead (message_id : InVal) (user : String)
| dbTouchLastRead (group user : String)
| deadlock

/-- Pending work inside broadcast_to_group / disconnect: a broadcast to a
    group (with optional excluded connection), the cleanup of one dead
    connection (disconnect acquires the manager lock), or the release of
    the lock at the exit of disconnect's `async with` block. -/
inductive Job : Type
| bcast (group : String) (msg : Msg) (excl : Option Nat)
| disc (conn : Nat)
| rel

/-- The connections a broadcast loop attempts to send to: every member of
    the room's set except the excluded one (lines 83-85). -/
def bTargets (conns : List Nat) (e : Option Nat) : List Nat :=
  conns.filter (fun d => !(some d == e))

/-- State mutation performed by disconnect (lines 45-59) once the popped
    connection record `p = (user_id, group_id)` has been found: remove the
    record, discard the handle from the room set (deleting the set when it
    becomes empty), and discard the user from the room's typing set (which
    is never deleted).  The clock ticks for the user_offline timestamp. -/
def discState (st : MState) (d : Nat) (p : String × String) : MState :=
  { group_connections :=
      match lookupL st.group_connections p.2 with
      | none => st.group_connections
      | some conns =>
          let conns' := conns.erase d
          if conns' = [] then eraseKey st.group_connections p.2
          else setKey st.group_connections p.2 conns'
    connection_info := eraseKey st.connection_info d
    typing_users :=
      match lookupL st.typing_users p.2 with
      | none => st.typing_users
      | some ts => setKey st.typing_users p.2 (ts.erase p.1)
    clock := st.clock + 1 }

/-- Weight of one pending job, used for termination: a broadcast can spawn
    one disc job per member of its room's current set. -/
def jobWeight (st : MState) : Job → Nat
| Job.bcast g _ _ => ((lookupL st.group_connections g).getD []).length + 1
| Job.disc _ => 1
| Job.rel => 1

/-- Total weight of the pending work stack. -/
def stackWeight (st : MState) (jobs : List Job) : Nat :=
  (jobs.map (jobWeight st)).sum

theorem stackWeight_nil (st : MState) : stackWeight st [] = 0 := rfl

theorem stackWeight_cons (st : MState) (j : Job) (rest : List Job) :
    stackWeight st (j :: rest) = jobWeight st j + stackWeight st rest := by
  simp [stackWeight]

theorem stackWeight_append (st : MState) (a b : List Job) :
    stackWeight st (a ++ b) = stackWeight st a + stackWeight st b := by
  simp [stackWeight]

theorem stackWeight_discs (st : MState) (ds : List Nat) :
    stackWeight st (ds.map Job.disc) = ds.length := by
  induction ds with
  | nil => rfl
  | cons d t ih =>
      simp only [List.map_cons, stackWeight_cons, jobWeight, ih, List.length_cons]
      omega

theorem eraseKey_length_lt {α β : Type} [DecidableEq α]
    (m : List (α × β)) (k : α) (v : β) (h : lookupL m k = some v) :
    (eraseKey m k).length < m.length := by
  induction m with
  | nil => simp [lookupL] at h
  | cons p t ih =>
      obtain ⟨k0, v0⟩ := p
      by_cases hk : k = k0
      · subst hk
        simp [eraseKey]
      · rw [lookupL, if_neg hk] at h
        rw [eraseKey, if_neg hk]
        simpa using ih h

/-- The broadcast / disconnect engine.  `run st jobs phi locked` executes
    the pending jobs in order; `locked` records whether the current task
    already holds the manager's non-reentrant asyncio.Lock:
    * `bcast g m e` (broadcast_to_group, lines 70-95): if the room is
      unknown, return; otherwise attempt a send to every member except
      `e`, collect the members whose send raised, and queue a disconnect
      for each of them after the loop (broadcast_to_group takes no lock);
    * `disc c` (disconnect, lines 43-68): `async with self._lock:` — if
      the task already holds the lock (the disconnect is nested inside a
      broadcast that a disconnect issued, line 95 reached from lines
      64-68), the await blocks forever: the execution ends with a
      deadlock marker, the registry frozen as it stands, and none of the
      remaining work ever happens.  Otherwise acquire the lock and pop
      the connection record; if absent release and do nothing, else
      mutate the registry via `discState` and run the recursive
      "user_offline" broadcast while still holding the lock, releasing it
      (`rel`) only afterwards;
    * `rel`: leave disconnect's `async with` block, releasing the lock. -/
def run (st : MState) (jobs : List Job) (phi : Nat → Bool) (locked : Bool) :
    MState × List TraceEntry :=
  match jobs with
  | [] => (st, [])
  | Job.bcast g m e :: rest =>
    match h : lookupL st.group_connections g with
    | none => run st rest phi locked
    | some conns =>
        let targets := bTargets conns e
        let tr := targets.map
          (fun d => if phi d then TraceEntry.failed d m else TraceEntry.sent d m)
        let dead := targets.filter phi
        let res := run st (dead.map Job.disc ++ rest) phi locked
        (res.1, tr ++ res.2)
  | Job.disc d :: rest =>
    match locked with
    | true => (st, [TraceEntry.deadlock])
    | false =>
      match hinfo : lookupL st.connection_info d with
      | none => run st rest phi false
      | some p =>
          run (discState st d p)
            (Job.bcast p.2 (userOfflineMsg p.1 st.clock) none :: Job.rel :: rest)
            phi true
  | Job.rel :: rest => run st rest phi false
  termination_by (st.connection_info.length, stackWeight st jobs)
  decreasing_by
  · apply Prod.Lex.right
    simp only [stackWeight_cons, jobWeight]
    omega
  · apply Prod.Lex.right
    rw [stackWeight_append, stackWeight_discs, stackWeight_cons]
    have h1 : (List.filter phi (bTargets conns e)).length ≤ (bTargets conns e).length :=
      List.length_filter_le _ _
    have h2 : (bTargets conns e).length ≤ conns.length := List.length_filter_le _ _
    simp only [jobWeight, h, Option.getD_some]
    omega
  · apply Prod.Lex.right
    simp only [stackWeight_cons, jobWeight]
    omega
  · apply Prod.Lex.left
    exact eraseKey_length_lt _ _ _ hinfo
  · apply Prod.Lex.right
    simp only [stackWeight_cons, jobWeight]
    omega

/- Step equations for `run`, used both in inductions and to evaluate
   concrete scenarios. -/

theorem run_nil (st : MState) (phi : Nat → Bool) (locked : Bool) :
    run st [] phi locked = (st, []) := by
  rw [run.eq_def]

theorem run_bcast_none (st : MState) (phi : Nat → Bool) (locked : Bool) (g : String)
    (m : Msg) (e : Option Nat) (rest : List Job)
    (h : lookupL st.group_connections g = none) :
    run st (Job.bcast g m e :: rest) phi locked = run st rest phi locked := by
  rw [run.eq_def]
  dsimp only
  split
  · rfl
  · simp_all

theorem run_bcast_some (st : MState) (phi : Nat → Bool) (locked : Bool) (g : String)
    (m : Msg) (e : Option Nat) (rest : List Job) (conns : List Nat)
    (h : lookupL st.group_connections g = some conns) :
    run st (Job.bcast g m e :: rest) phi locked =
      ((run st ((List.filter phi (bTargets conns e)).map Job.disc ++ rest) phi locked).1,
       (bTargets conns e).map
           (fun d => if phi d then TraceEntry.failed d m else TraceEntry.sent d m)
         ++ (run st ((List.filter phi (bTargets conns e)).map Job.disc ++ rest) phi
              locked).2) := by
  rw [run.eq_def]
  dsimp only
  split
  · simp_all
  · rename_i conns2 heq
    rw [h] at heq
    injection heq with hh
    subst hh
    rfl

/-- A nested disconnect blocks forever on the lock the task already
    holds: the execution ends here. -/
theorem run_disc_locked (st : MState) (phi : Nat → Bool) (d : Nat) (rest : List Job) :
    run st (Job.disc d :: rest) phi true = (st, [TraceEntry.deadlock]) := by
  rw [run.eq_def]

theorem run_disc_none (st : MState) (phi : Nat → Bool) (d : Nat) (rest : List Job)
    (h : lookupL st.connection_info d = none) :
    run st (Job.disc d :: rest) phi false = run st rest phi false := by
  rw [run.eq_def]
  dsimp only
  split
  · rfl
  · simp_all

theorem run_disc_some (st : MState) (phi : Nat → Bool) (d : Nat) (rest : List Job)
    (p : String × String) (h : lookupL st.connection_info d = some p) :
    run st (Job.disc d :: rest) phi false =
      run (discState st d p)
        (Job.bcast p.2 (userOfflineMsg p.1 st.clock) none :: Job.rel :: rest)
        phi true := by
  rw [run.eq_def]
  dsimp only
  split
  · simp_all
  · rename_i p2 heq
    rw [h] at heq
    injection heq with hh
    subst hh
    rfl

theorem run_rel (st : MState) (phi : Nat → Bool) (locked : Bool) (rest : List Job) :
    run st (Job.rel :: rest) phi locked = run st rest phi false := by
  rw [run.eq_def]

/- ------------------------------------------------------------------ -/
/- ConnectionManager operations.                                      -/
/- ------------------------------------------------------------------ -/

/-- Advance the logical server clock (one timestamp was taken). -/
def bumpClock (st : MState) : MState :=
  { st with clock := st.clock + 1 }

/-- State mutation of connect (lines 27-32): lazily create the room's
    set, add the handle, record connection -> (user, group). -/
def connectState (st : MState) (ws : Nat) (g u : String) : MState :=
  { st with
    group_connections :=
      setKey st.group_connections g (addElem ((lookupL st.group_connections g).getD []) ws)
    connection_info := setKey st.connection_info ws (u, g) }

/-- connect (lines 25-41): register the connection, then broadcast
    "user_online" to the room excluding the new connection itself. -/
def connect (st : MState) (ws : Nat) (g u : String) (phi : Nat → Bool) :
    MState × List TraceEntry :=
  let st1 := connectState st ws g u
  run (bumpClock st1) [Job.bcast g (userOnlineMsg u st1.clock) (some ws)] phi false

/-- disconnect (lines 43-68). -/
def disconnect (st : MState) (ws : Nat) (phi : Nat → Bool) :
    MState × List TraceEntry :=
  run st [Job.disc ws] phi false

/-- broadcast_to_group (lines 70-95). -/
def broadcast_to_group (st : MState) (g : String) (m : Msg) (e : Option Nat)
    (phi : Nat → Bool) : MState × List TraceEntry :=
  run st [Job.bcast g m e] phi false

/-- broadcast_message (lines 112-118). -/
def broadcast_message (st : MState) (g : String) (p : InVal) (phi : Nat → Bool) :
    MState × List TraceEntry :=
  broadcast_to_group (bumpClock st) g (newMessageMsg p st.clock) none phi

/-- broadcast_message_edit (lines 120-127). -/
def broadcast_message_edit (st : MState) (g mid content : String)
    (phi : Nat → Bool) : MState × List TraceEntry :=
  broadcast_to_group (bumpClock st) g (messageEditedMsg mid content st.clock) none phi

/-- broadcast_message_delete (lines 129-135). -/
def broadcast_message_delete (st : MState) (g mid : String) (phi : Nat → Bool) :
    MState × List TraceEntry :=
  broadcast_to_group (bumpClock st) g (messageDeletedMsg mid st.clock) none phi

/-- set_typing (lines 137-149): lazily create the typing set, add the
    user, broadcast "typing_start" to the whole room (no exclusion). -/
def set_typing (st : MState) (g u name : String) (phi : Nat → Bool) :
    MState × List TraceEntry :=
  let st1 :=
    { st with
      typing_users :=
        setKey st.typing_users g (addElem ((lookupL st.typing_users g).getD []) u)
      clock := st.clock + 1 }
  run st1 [Job.bcast g (typingStartMsg u name st.clock) none] phi false

/-- clear_typing (lines 151-161): discard the user from the typing set if
    the room has one (the entry is NOT deleted when it becomes empty),
    then broadcast "typing_stop" to the room unconditionally. -/
def clear_typing (st : MState) (g u : String) (phi : Nat → Bool) :
    MState × List TraceEntry :=
  let st1 :=
    { st with
      typing_users :=
        match lookupL st.typing_users g with
        | none => st.typing_users
        | some ts => setKey st.typing_users g (ts.erase u)
      clock := st.clock + 1 }
  run st1 [Job.bcast g (typingStopMsg u st.clock) none] phi false

/-- broadcast_member_joined (lines 163-169). -/
def broadcast_member_joined (st : MState) (g : String) (userData : InVal)
    (phi : Nat → Bool) : MState × List TraceEntry :=
  broadcast_to_group (bumpClock st) g (memberJoinedMsg userData st.clock) none phi

/-- broadcast_member_left (lines 171-177). -/
def broadcast_member_left (st : MState) (g u : String) (phi : Nat → Bool) :
    MState × List TraceEntry :=
  broadcast_to_group (bumpClock st) g (memberLeftMsg u st.clock) none phi

/-- broadcast_reaction (lines 183-199). -/
def broadcast_reaction (st : MState) (g mid emoji uid action : String)
    (phi : Nat → Bool) : MState × List TraceEntry :=
  broadcast_to_group (bumpClock st) g (reactionUpdateMsg mid emoji uid action st.clock)
    none phi

/-- broadcast_pin (lines 201-214). -/
def broadcast_pin (st : MState) (g mid : String) (isPinned : Bool) (uid : String)
    (phi : Nat → Bool) : MState × List TraceEntry :=
  broadcast_to_group (bumpClock st) g (pinMsg mid isPinned uid st.clock) none phi

/-- broadcast_poll (lines 216-222). -/
def broadcast_poll (st : MState) (g : String) (pollData : InVal) (action : String)
    (phi : Nat → Bool) : MState × List TraceEntry :=
  broadcast_to_group (bumpClock st) g (pollMsg pollData action st.clock) none phi

/-- broadcast_poll_vote (lines 224-231). -/
def broadcast_poll_vote (st : MState) (g pid uid : String) (phi : Nat → Bool) :
    MState × List TraceEntry :=
  broadcast_to_group (bumpClock st) g (pollVoteMsg pid uid st.clock) none phi

/-- broadcast_read (lines 233-240). -/
def broadcast_read (st : MState) (g mid uid : String) (phi : Nat → Bool) :
    MState × List TraceEntry :=
  broadcast_to_group (bumpClock st) g (messageReadMsg mid uid st.clock) none phi

/-- send_to_user (lines 97-110): deliver only to the target user's
    connections in the room; failures are logged, never treated as
    disconnects, and the registry is not mutated. -/
def send_to_user (st : MState) (g uid : String) (m : Msg) (phi : Nat → Bool) :
    List TraceEntry :=
  match lookupL st.group_connections g with
  | none => []
  | some conns =>
      conns.filterMap (fun c =>
        match lookupL st.connection_info c with
        | some q => if q.1 = uid
            then some (if phi c then TraceEntry.failed c m else TraceEntry.sent c m)
            else none
        | none => none)

/-- broadcast_mention (lines 242-253): a best-effort side notification
    through send_to_user. -/
def broadcast_mention (st : MState) (g mid mentioned : String) (phi : Nat → Bool) :
    List TraceEntry :=
  send_to_user st g mentioned (mentionMsg mid st.clock) phi

/-- get_online_users (lines 255-264): one user id per connection in the
    room that still has a connection record; NOT deduplicated. -/
def get_online_users (st : MState) (g : String) : List String :=
  match lookupL st.group_connections g with
  | none => []
  | some conns => conns.filterMap (fun c => (lookupL st.connection_info c).map Prod.fst)

/-- get_typing_users (lines 266-268). -/
def get_typing_users (st : MState) (g : String) : List String :=
  (lookupL st.typing_users g).getD []

/-- The spec operation ListConnections(room): the room's membership set as
    currently stored (source: the group_connections dict), empty for an
    unknown room. -/
def list_connections (st : MState) (g : String) : List Nat :=
  (lookupL st.group_connections g).getD []

/- ------------------------------------------------------------------ -/
/- Route-level message dispatch (websocket_routes.py lines 100-156).   -/
/- ------------------------------------------------------------------ -/

/-- message.get("type") when it is a string; anything else compares
    unequal to every dispatch literal and falls through. -/
def getTypeStr (frame : List (String × InVal)) : Option String :=
  match lookupL frame "type" with
  | some (InVal.str s) => some s
  | _ => none

/-- message.get("data", message) (line 112): the nested data dict if
    present, the frame itself if absent; `none` when the "data" value is
    not a dict, in which case the subsequent attribute access raises and
    the frame is ignored by the catch-all handler. -/
def frameData (frame : List (String × InVal)) :
    Option (List (String × InVal)) :=
  match lookupL frame "data" with
  | none => some frame
  | some (InVal.dict d) => some d
  | some _ => none

/-- (msg_data.get("content") or "") .strip()'s input (line 113): the
    content string before trimming.  `none` models the raising paths
    (.strip() on a truthy non-string), which the catch-all except treats
    the same as a drop; falsy values (missing key, null, "", 0, empty
    dict) collapse to "". -/
def contentVal (d : List (String × InVal)) : Option String :=
  match lookupL d "content" with
  | some (InVal.str s) => some s
  | some (InVal.num 0) => some ""
  | some (InVal.num _) => none
  | some (InVal.dict []) => some ""
  | some (InVal.dict _) => none
  | some InVal.null => some ""
  | none => some ""

/-- msg_data.get("message_type", "text") (line 119). -/
def messageTypeVal (d : List (String × InVal)) : InVal :=
  (lookupL d "message_type").getD (InVal.str "text")

/-- msg_data.get("reply_to_id") (line 120); Python passes None when
    absent. -/
def replyToVal (d : List (String × InVal)) : InVal :=
  (lookupL d "reply_to_id").getD InVal.null

/-- Python str.strip() (line 113): remove leading and trailing
    whitespace.  Modelled structurally over the character list so that
    concrete frames evaluate inside the kernel. -/
def pyStrip (s : String) : String :=
  ⟨((s.data.dropWhile Char.isWhitespace).reverse.dropWhile Char.isWhitespace).reverse⟩

/-- Python truthiness of an inbound JSON value. -/
def truthy : InVal → Bool
| InVal.str s => !(s == "")
| InVal.num n => !(n == 0)
| InVal.dict l => !l.isEmpty
| InVal.null => false

/-- One iteration of the Active-state message loop on a parsed frame
    (lines 105-156).  `persist` is the external Chat Application Service's
    reply to db.send_message (some stored message, or none on failure);
    the returned Bool records that the loop proceeds to the next receive
    (no dispatch branch ever breaks the loop: all exceptions inside the
    body are caught at lines 153-156). -/
def handleFrame (st : MState) (group_id user_id user_name : String) (ws : Nat)
    (frame : List (String × InVal)) (persist : Option InVal) (phi : Nat → Bool) :
    MState × List TraceEntry × Bool :=
  match getTypeStr frame with
  | some "message" =>
      (match frameData frame with
       | none => (st, [], true)
       | some d =>
           match contentVal d with
           | none => (st, [], true)
           | some s =>
               let content := pyStrip s
               if content = "" then (st, [], true)
               else
                 let tr0 := [TraceEntry.dbSend group_id user_id content
                   (messageTypeVal d) (replyToVal d)]
                 match persist with
                 | none => (st, tr0, true)
                 | some p =>
                     let r1 := broadcast_message st group_id p phi
                     let r2 := clear_typing r1.1 group_id user_id phi
                     (r2.1, tr0 ++ r1.2 ++ r2.2, true))
  | some "typing" =>
      let r := set_typing st group_id user_id user_name phi
      (r.1, r.2, true)
  | some "stop_typing" =>
      let r := clear_typing st group_id user_id phi
      (r.1, r.2, true)
  | some "read" =>
      (match lookupL frame "message_id" with
       | some mid =>
           if truthy mid then
             (st, [TraceEntry.dbMarkRead mid user_id,
                   TraceEntry.dbTouchLastRead group_id user_id], true)
           else (st, [], true)
       | none => (st, [], true))
  | some "ping" =>
      (st, [if phi ws then TraceEntry.failed ws pongMsg
            else TraceEntry.sent ws pongMsg], true)
  | _ => (st, [], true)

/- ------------------------------------------------------------------ -/
/- Derived observables used in the verified properties.               -/
/- ------------------------------------------------------------------ -/

/-- Read a string field of an outbound event dict. -/
def getStr (m : Msg) (k : String) : Option String :=
  match lookupL m k with
  | some (FVal.str s) => some s
  | _ => none

/-- Does the event announce user `u` going offline? -/
def isOffU (u : String) (m : Msg) : Bool :=
  (getStr m "type" == some "user_offline") && (getStr m "user_id" == some u)

/-- How many user_offline events for `u` were successfully delivered to
    connection `r` in a trace. -/
def countOffU (u : String) (r : Nat) (tr : List TraceEntry) : Nat :=
  tr.countP (fun e => match e with
    | TraceEntry.sent d m => d == r && isOffU u m
    | _ => false)

/-- Is the job a broadcast of a user_offline event for `u`? -/
def offUJob (u : String) : Job → Bool
| Job.bcast _ m2 _ => isOffU u m2
| _ => false

/-- Was an outbound delivery of an event satisfying `isOffU u` attempted
    at connection `c` (successfully or not)? -/
def targetsOffU (u : String) (c : Nat) : TraceEntry → Prop
| TraceEntry.sent d m => d = c ∧ isOffU u m = true
| TraceEntry.failed d m => d = c ∧ isOffU u m = true
| _ => False

/-- The message carried by a send attempt, if the entry is one. -/
def entryMsg : TraceEntry → Option Msg
| TraceEntry.sent _ m => some m
| TraceEntry.failed _ m => some m
| _ => none

/-- The claimed timestamp format: a number of milliseconds since epoch in
    the "timestamp" field. -/
def hasMillisTimestamp (m : Msg) : Prop :=
  ∃ n, lookupL m "timestamp" = some (FVal.nat n)

/-- What the outbound events actually carry: a string event-kind tag in
    "type", and a server-generated ISO-8601 timestamp string in the
    "timestamp" field (in "edited_at" for message_edited). -/
def WFout (m : Msg) : Prop :=
  (∃ k, getStr m "type" = some k) ∧
  (∃ s, getStr m "timestamp" = some s ∨ getStr m "edited_at" = some s)

/-- Transport environment with every send succeeding. -/
def phiNone : Nat → Bool := fun _ => false

/-- Transport environment where the transports of handles 1 and 2 are
    broken. -/
def phiTwoDead : Nat → Bool := fun n => n == 1 || n == 2

/- ------------------------------------------------------------------ -/
/- Association-list lemmas.                                           -/
/- ------------------------------------------------------------------ -/

section AList

variable {α β : Type} [DecidableEq α]

theorem lookupL_setKey_self (m : List (α × β)) (k : α) (v : β) :
    lookupL (setKey m k v) k = some v := by
  induction m with
  | nil => simp [setKey, lookupL]
  | cons p t ih =>
      obtain ⟨k0, v0⟩ := p
      by_cases hk : k = k0
      · simp [setKey, hk, lookupL]
      · simp [setKey, hk, lookupL, ih]

theorem lookupL_setKey_ne (m : List (α × β)) (k k' : α) (v : β) (h : k' ≠ k) :
    lookupL (setKey m k v) k' = lookupL m k' := by
  induction m with
  | nil => simp [setKey, lookupL, h]
  | cons p t ih =>
      obtain ⟨k0, v0⟩ := p
      by_cases hk : k = k0
      · subst hk
        simp [setKey, lookupL, h]
      · by_cases hk' : k' = k0 <;> simp [setKey, lookupL, hk, hk', ih]

theorem lookupL_eraseKey_ne (m : List (α × β)) (k k' : α) (h : k' ≠ k) :
    lookupL (eraseKey m k) k' = lookupL m k' := by
  induction m with
  | nil => simp [eraseKey]
  | cons p t ih =>
      obtain ⟨k0, v0⟩ := p
      by_cases hk : k = k0
      · subst hk
        simp [eraseKey, lookupL, h]
      · by_cases hk' : k' = k0 <;> simp [eraseKey, lookupL, hk, hk', ih]

theorem lookupL_eq_none_iff (m : List (α × β)) (k : α) :
    lookupL m k = none ↔ k ∉ m.map Prod.fst := by
  induction m with
  | nil => simp [lookupL]
  | cons p t ih =>
      obtain ⟨k0, v0⟩ := p
      by_cases hk : k = k0 <;> simp [lookupL, hk, ih]

theorem eraseKey_sublist (m : List (α × β)) (k : α) :
    (eraseKey m k).Sublist m := by
  induction m with
  | nil => simp [eraseKey]
  | cons p t ih =>
      obtain ⟨k0, v0⟩ := p
      by_cases hk : k = k0
      · simp [eraseKey, hk]
      · simpa [eraseKey, hk] using ih.cons₂ (k0, v0)

theorem mem_eraseKey (m : List (α × β)) (k : α) (p : α × β)
    (h : p ∈ eraseKey m k) : p ∈ m :=
  (eraseKey_sublist m k).subset h

theorem keysNodup_eraseKey (m : List (α × β)) (k : α) (h : keysNodup m) :
    keysNodup (eraseKey m k) :=
  h.sublist ((eraseKey_sublist m k).map Prod.fst)

theorem lookupL_eraseKey_self (m : List (α × β)) (k : α) (h : keysNodup m) :
    lookupL (eraseKey m k) k = none := by
  induction m with
  | nil => simp [eraseKey, lookupL]
  | cons p t ih =>
      obtain ⟨k0, v0⟩ := p
      have htail : keysNodup t := (List.nodup_cons.mp h).2
      by_cases hk : k = k0
      · subst hk
        have hnot : k ∉ t.map Prod.fst := (List.nodup_cons.mp h).1
        simpa [eraseKey] using (lookupL_eq_none_iff t k).mpr hnot
      · simp [eraseKey, lookupL, hk, ih htail]

theorem lookupL_eraseKey_none (m : List (α × β)) (k k' : α)
    (h : lookupL m k' = none) : lookupL (eraseKey m k) k' = none := by
  rw [lookupL_eq_none_iff] at h ⊢
  intro hmem
  exact h (((eraseKey_sublist m k).map Prod.fst).subset hmem)

theorem lookupL_mem (m : List (α × β)) (k : α) (v : β)
    (h : lookupL m k = some v) : (k, v) ∈ m := by
  induction m with
  | nil => simp [lookupL] at h
  | cons p t ih =>
      obtain ⟨k0, v0⟩ := p
      by_cases hk : k = k0
      · subst hk
        simp [lookupL] at h
        simp [h]
      · rw [lookupL, if_neg hk] at h
        exact List.mem_cons_of_mem _ (ih h)

theorem lookupL_eq_some_of_mem (m : List (α × β)) (k : α) (v : β)
    (hnd : keysNodup m) (h : (k, v) ∈ m) : lookupL m k = some v := by
  induction m with
  | nil => simp at h
  | cons p t ih =>
      obtain ⟨k0, v0⟩ := p
      rcases List.mem_cons.mp h with h1 | h1
      · injection h1 with h2 h3
        subst h2; subst h3
        simp [lookupL]
      · have hk : k ≠ k0 := by
          intro hkk
          subst hkk
          exact (List.nodup_cons.mp hnd).1
            (List.mem_map.mpr ⟨(k, v), h1, rfl⟩)
        rw [lookupL, if_neg hk]
        exact ih (List.nodup_cons.mp hnd).2 h1

theorem mem_keys_setKey (m : List (α × β)) (k a : α) (v : β) :
    a ∈ (setKey m k v).map Prod.fst ↔ a = k ∨ a ∈ m.map Prod.fst := by
  induction m with
  | nil => simp [setKey]
  | cons p t ih =>
      obtain ⟨k0, v0⟩ := p
      by_cases hk : k = k0
      · subst hk
        simp [setKey]
      · simp only [setKey, if_neg hk, List.map_cons, List.mem_cons, ih]
        tauto

theorem keysNodup_setKey (m : List (α × β)) (k : α) (v : β) (h : keysNodup m) :
    keysNodup (setKey m k v) := by
  induction m with
  | nil => simp [setKey, keysNodup]
  | cons p t ih =>
      obtain ⟨k0, v0⟩ := p
      obtain ⟨hhead, htail⟩ := List.nodup_cons.mp h
      by_cases hk : k = k0
      · subst hk
        have hset : setKey ((k, v0) :: t) k v = (k, v) :: t := by simp [setKey]
        unfold keysNodup
        rw [hset, List.map_cons]
        exact List.nodup_cons.mpr ⟨hhead, htail⟩
      · have hset : setKey ((k0, v0) :: t) k v = (k0, v0) :: setKey t k v := by
          simp [setKey, hk]
        unfold keysNodup
        rw [hset, List.map_cons]
        refine List.nodup_cons.mpr ⟨?_, ?_⟩
        · intro hmem
          rcases (mem_keys_setKey t k k0 v).mp hmem with h1 | h1
          · exact hk h1.symm
          · exact hhead h1
        · exact ih htail


theorem mem_setKey_nodup (m : List (α × β)) (k : α) (v : β) (hnd : keysNodup m)
    (q : α × β) (h : q ∈ setKey m k v) : q = (k, v) ∨ (q ∈ m ∧ q.1 ≠ k) := by
  induction m with
  | nil =>
      left
      simpa [setKey] using h
  | cons p t ih =>
      obtain ⟨k0, v0⟩ := p
      obtain ⟨hhead, htail⟩ := List.nodup_cons.mp hnd
      by_cases hk : k = k0
      · subst hk
        rcases List.mem_cons.mp (by simpa [setKey] using h) with h1 | h1
        · left; exact h1
        · right
          refine ⟨List.mem_cons_of_mem _ h1, ?_⟩
          intro hq
          exact hhead (List.mem_map.mpr ⟨q, h1, hq⟩)
      · rw [setKey, if_neg hk] at h
        rcases List.mem_cons.mp h with h1 | h1
        · right
          constructor
          · rw [h1]
            exact List.mem_cons_self _ _
          · rw [h1]
            intro hq
            apply hk
            simpa using hq.symm
        · rcases ih htail h1 with h2 | h2
          · left; exact h2
          · right; exact ⟨List.mem_cons_of_mem _ h2.1, h2.2⟩

theorem mem_eraseKey_nodup (m : List (α × β)) (k : α) (hnd : keysNodup m)
    (q : α × β) (h : q ∈ eraseKey m k) : q ∈ m ∧ q.1 ≠ k := by
  refine ⟨mem_eraseKey m k q h, ?_⟩
  intro hq
  have h1 : lookupL (eraseKey m k) k = none := lookupL_eraseKey_self m k hnd
  rw [lookupL_eq_none_iff] at h1
  exact h1 (List.mem_map.mpr ⟨q, h, hq⟩)

theorem mem_addElem (l : List α) (a b : α) :
    b ∈ addElem l a ↔ b = a ∨ b ∈ l := by
  by_cases h : a ∈ l
  · rw [addElem, if_pos h]
    constructor
    · tauto
    · rintro (rfl | hb)
      · exact h
      · exact hb
  · rw [addElem, if_neg h]
    simp
    tauto

theorem nodup_addElem (l : List α) (a : α) (h : l.Nodup) :
    (addElem l a).Nodup := by
  by_cases ha : a ∈ l
  · rw [addElem, if_pos ha]
    exact h
  · rw [addElem, if_neg ha]
    refine List.Nodup.append h (List.nodup_singleton a) ?_
    intro x hx hxa
    rw [List.mem_singleton] at hxa
    subst hxa
    exact ha hx

theorem setKey_same (m : List (α × β)) (k : α) (v : β)
    (h : lookupL m k = some v) : setKey m k v = m := by
  induction m with
  | nil => simp [lookupL] at h
  | cons p t ih =>
      obtain ⟨k0, v0⟩ := p
      by_cases hk : k = k0
      · subst hk
        rw [lookupL, if_pos rfl] at h
        injection h with h2
        rw [setKey, if_pos rfl, h2]
      · rw [lookupL, if_neg hk] at h
        rw [setKey, if_neg hk, ih h]

theorem addElem_ne_nil (l : List α) (a : α) : addElem l a ≠ [] := by
  by_cases ha : a ∈ l
  · rw [addElem, if_pos ha]
    intro hnil
    rw [hnil] at ha
    simp at ha
  · rw [addElem, if_neg ha]
    simp

end AList

/- ------------------------------------------------------------------ -/
/- The registry invariant.                                            -/
/- ------------------------------------------------------------------ -/

/-- Invariant of every reachable registry state: dict keys are unique,
    each room's membership set is a nonempty duplicate-free list whose
    members all have a connection record naming that room, and typing
    sets are duplicate-free. -/
def Inv (st : MState) : Prop :=
  keysNodup st.group_connections ∧
  keysNodup st.connection_info ∧
  keysNodup st.typing_users ∧
  (∀ p ∈ st.group_connections, p.2 ≠ [] ∧ p.2.Nodup ∧
     ∀ c ∈ p.2, (lookupL st.connection_info c).map Prod.snd = some p.1) ∧
  (∀ p ∈ st.typing_users, p.2.Nodup)

instance (st : MState) : Decidable (Inv st) := by
  unfold Inv
  infer_instance

/-- Updating only the typing map and clock leaves room membership reads
    unchanged. -/
theorem list_connections_update_ty (x : MState) (ty2 : List (String × List String))
    (c2 : Nat) (g : String) :
    list_connections { x with typing_users := ty2, clock := c2 } g =
      list_connections x g := rfl

theorem Inv_initState : Inv initState := by
  refine ⟨?_, ?_, ?_, ?_, ?_⟩ <;> simp [initState, keysNodup]

theorem Inv_bumpClock (st : MState) (h : Inv st) : Inv (bumpClock st) := h

/-- Any update that only touches the typing map and the clock preserves
    the invariant provided the new typing map is well formed. -/
theorem Inv_typingUpdate (st : MState) (ty2 : List (String × List String)) (c2 : Nat)
    (hk : keysNodup ty2) (hn : ∀ p ∈ ty2, p.2.Nodup) (hInv : Inv st) :
    Inv { st with typing_users := ty2, clock := c2 } := by
  obtain ⟨hgc, hinfo, _, hmem, _⟩ := hInv
  exact ⟨hgc, hinfo, hk, hmem, hn⟩

theorem Inv_connectState (st : MState) (ws : Nat) (g u : String)
    (hInv : Inv st) (hfresh : lookupL st.connection_info ws = none) :
    Inv (connectState st ws g u) := by
  obtain ⟨hgc, hinfo, hty, hmem, htymem⟩ := hInv
  refine ⟨keysNodup_setKey _ _ _ hgc, keysNodup_setKey _ _ _ hinfo, hty, ?_, htymem⟩
  intro q hq
  have hconnsNodup : ((lookupL st.group_connections g).getD []).Nodup := by
    cases hg : lookupL st.group_connections g with
    | none => simp
    | some l =>
        have := hmem (g, l) (lookupL_mem _ _ _ hg)
        simpa using this.2.1
  rcases mem_setKey_nodup st.group_connections g
      (addElem ((lookupL st.group_connections g).getD []) ws) hgc q hq with h1 | h1
  · subst h1
    refine ⟨addElem_ne_nil _ _, nodup_addElem _ _ hconnsNodup, ?_⟩
    intro c hc
    rcases (mem_addElem _ _ _).mp hc with rfl | hc2
    · rw [connectState]
      simp only
      rw [lookupL_setKey_self]
      rfl
    · cases hg : lookupL st.group_connections g with
      | none => rw [hg] at hc2; simp at hc2
      | some l =>
          rw [hg] at hc2
          simp only [Option.getD_some] at hc2
          have hold := (hmem (g, l) (lookupL_mem _ _ _ hg)).2.2 c hc2
          have hcne : c ≠ ws := by
            intro hcw
            subst hcw
            rw [hfresh] at hold
            simp at hold
          rw [connectState]
          simp only
          rw [lookupL_setKey_ne _ _ _ _ hcne]
          exact hold
  · obtain ⟨hq2, _⟩ := h1
    obtain ⟨hne, hnd, hmm⟩ := hmem q hq2
    refine ⟨hne, hnd, ?_⟩
    intro c hc
    have hold := hmm c hc
    have hcne : c ≠ ws := by
      intro hcw
      subst hcw
      rw [hfresh] at hold
      simp at hold
    rw [connectState]
    simp only
    rw [lookupL_setKey_ne _ _ _ _ hcne]
    exact hold

theorem discState_info (st : MState) (d : Nat) (p : String × String) :
    (discState st d p).connection_info = eraseKey st.connection_info d := rfl

theorem discState_clock (st : MState) (d : Nat) (p : String × String) :
    (discState st d p).clock = st.clock + 1 := rfl

theorem discState_gc_none (st : MState) (d : Nat) (p : String × String)
    (h : lookupL st.group_connections p.2 = none) :
    (discState st d p).group_connections = st.group_connections := by
  unfold discState
  dsimp only
  rw [h]

theorem discState_gc_erase (st : MState) (d : Nat) (p : String × String)
    (conns : List Nat) (h : lookupL st.group_connections p.2 = some conns)
    (hnil : conns.erase d = []) :
    (discState st d p).group_connections = eraseKey st.group_connections p.2 := by
  unfold discState
  dsimp only
  rw [h]
  dsimp only
  rw [if_pos hnil]

theorem discState_gc_set (st : MState) (d : Nat) (p : String × String)
    (conns : List Nat) (h : lookupL st.group_connections p.2 = some conns)
    (hnil : conns.erase d ≠ []) :
    (discState st d p).group_connections = setKey st.group_connections p.2 (conns.erase d) := by
  unfold discState
  dsimp only
  rw [h]
  dsimp only
  rw [if_neg hnil]

theorem discState_ty_none (st : MState) (d : Nat) (p : String × String)
    (h : lookupL st.typing_users p.2 = none) :
    (discState st d p).typing_users = st.typing_users := by
  unfold discState
  dsimp only
  rw [h]

theorem discState_ty_some (st : MState) (d : Nat) (p : String × String)
    (ts : List String) (h : lookupL st.typing_users p.2 = some ts) :
    (discState st d p).typing_users = setKey st.typing_users p.2 (ts.erase p.1) := by
  unfold discState
  dsimp only
  rw [h]

theorem Inv_discState (st : MState) (d : Nat) (p : String × String)
    (hInv : Inv st) (hd : lookupL st.connection_info d = some p) :
    Inv (discState st d p) := by
  obtain ⟨hgc, hinfo, hty, hmem, htymem⟩ := hInv
  have hinfoLookup : ∀ (c : Nat), c ≠ d →
      lookupL (eraseKey st.connection_info d) c = lookupL st.connection_info c :=
    fun c hc => lookupL_eraseKey_ne _ _ _ hc
  -- a room entry whose key is not the disconnected room cannot contain d
  have hNotD : ∀ q ∈ st.group_connections, q.1 ≠ p.2 → ∀ c ∈ q.2, c ≠ d := by
    intro q hq hqk c hc hcd
    subst hcd
    have h2 := (hmem q hq).2.2 c hc
    rw [hd] at h2
    simp at h2
    exact hqk h2.symm
  -- goal template for untouched entries
  have hgoal : ∀ q, q ∈ st.group_connections → (∀ c ∈ q.2, c ≠ d) →
      q.2 ≠ [] ∧ q.2.Nodup ∧
      ∀ c ∈ q.2, (lookupL (discState st d p).connection_info c).map Prod.snd = some q.1 := by
    intro q hq2 hcd
    obtain ⟨hne, hnd, hmm⟩ := hmem q hq2
    refine ⟨hne, hnd, ?_⟩
    intro c hc
    rw [discState_info, hinfoLookup c (hcd c hc)]
    exact hmm c hc
  refine ⟨?_, ?_, ?_, ?_, ?_⟩
  · -- keys of the room map
    cases hg : lookupL st.group_connections p.2 with
    | none =>
        rw [discState_gc_none _ _ _ hg]
        exact hgc
    | some conns =>
        by_cases hnil : conns.erase d = []
        · rw [discState_gc_erase _ _ _ _ hg hnil]
          exact keysNodup_eraseKey _ _ hgc
        · rw [discState_gc_set _ _ _ _ hg hnil]
          exact keysNodup_setKey _ _ _ hgc
  · rw [discState_info]
    exact keysNodup_eraseKey _ _ hinfo
  · cases ht : lookupL st.typing_users p.2 with
    | none =>
        rw [discState_ty_none _ _ _ ht]
        exact hty
    | some ts =>
        rw [discState_ty_some _ _ _ _ ht]
        exact keysNodup_setKey _ _ _ hty
  · intro q hq
    cases hg : lookupL st.group_connections p.2 with
    | none =>
        rw [discState_gc_none _ _ _ hg] at hq
        refine hgoal q hq ?_
        refine hNotD q hq ?_
        intro hqk
        rw [lookupL_eq_none_iff] at hg
        exact hg (List.mem_map.mpr ⟨q, hq, hqk⟩)
    | some conns =>
        have hconnsmem : (p.2, conns) ∈ st.group_connections := lookupL_mem _ _ _ hg
        have hconnsNodup : conns.Nodup := (hmem _ hconnsmem).2.1
        by_cases hnil : conns.erase d = []
        · rw [discState_gc_erase _ _ _ _ hg hnil] at hq
          have h2 := mem_eraseKey_nodup _ _ hgc q hq
          exact hgoal q h2.1 (hNotD q h2.1 h2.2)
        · rw [discState_gc_set _ _ _ _ hg hnil] at hq
          rcases mem_setKey_nodup _ _ _ hgc q hq with h1 | h1
          · subst h1
            refine ⟨hnil, hconnsNodup.erase d, ?_⟩
            intro c hc
            have hcd : c ≠ d := ((List.Nodup.mem_erase_iff hconnsNodup).mp hc).1
            have hcmem : c ∈ conns := ((List.Nodup.mem_erase_iff hconnsNodup).mp hc).2
            rw [discState_info, hinfoLookup c hcd]
            exact (hmem _ hconnsmem).2.2 c hcmem
          · exact hgoal q h1.1 (hNotD q h1.1 h1.2)
  · intro q hq
    cases ht : lookupL st.typing_users p.2 with
    | none =>
        rw [discState_ty_none _ _ _ ht] at hq
        exact htymem q hq
    | some ts =>
        rw [discState_ty_some _ _ _ _ ht] at hq
        rcases mem_setKey_nodup _ _ _ hty q hq with h1 | h1
        · subst h1
          exact (htymem _ (lookupL_mem _ _ _ ht)).erase _
        · exact htymem q h1.1

theorem Inv_run : ∀ (st : MState) (jobs : List Job) (phi : Nat → Bool) (locked : Bool),
    Inv st → Inv (run st jobs phi locked).1 := by
  intro st jobs phi locked
  induction st, jobs, phi, locked using run.induct with
  | case1 st phi locked =>
      intro h
      rw [run_nil]
      exact h
  | case2 st phi locked g m e rest hlook ih =>
      intro h
      rw [run_bcast_none _ _ _ _ _ _ _ hlook]
      exact ih h
  | case3 st phi locked g m e rest conns hlook targets dead ih =>
      intro h
      rw [run_bcast_some _ _ _ _ _ _ _ _ hlook]
      exact ih h
  | case4 st phi d rest =>
      intro h
      rw [run_disc_locked]
      exact h
  | case5 st phi d rest hlook ih =>
      intro h
      rw [run_disc_none _ _ _ _ hlook]
      exact ih h
  | case6 st phi d rest p hlook ih =>
      intro h
      rw [run_disc_some _ _ _ _ _ hlook]
      exact ih (Inv_discState _ _ _ h hlook)
  | case7 st phi locked rest ih =>
      intro h
      rw [run_rel]
      exact ih h

theorem Inv_connect (st : MState) (ws : Nat) (g u : String) (phi : Nat → Bool)
    (hInv : Inv st) (hfresh : lookupL st.connection_info ws = none) :
    Inv (connect st ws g u phi).1 :=
  Inv_run _ _ _ _ (Inv_connectState st ws g u hInv hfresh)

theorem Inv_disconnect (st : MState) (ws : Nat) (phi : Nat → Bool)
    (hInv : Inv st) : Inv (disconnect st ws phi).1 :=
  Inv_run _ _ _ _ hInv

theorem Inv_broadcast_to_group (st : MState) (g : String) (m : Msg) (e : Option Nat)
    (phi : Nat → Bool) (hInv : Inv st) : Inv (broadcast_to_group st g m e phi).1 :=
  Inv_run _ _ _ _ hInv

theorem Inv_broadcast_message (st : MState) (g : String) (p : InVal)
    (phi : Nat → Bool) (hInv : Inv st) : Inv (broadcast_message st g p phi).1 :=
  Inv_run _ _ _ _ hInv

theorem Inv_set_typing (st : MState) (g u name : String) (phi : Nat → Bool)
    (hInv : Inv st) : Inv (set_typing st g u name phi).1 := by
  obtain ⟨hgc, hinfo, hty, hmem, htymem⟩ := hInv
  refine Inv_run _ _ _ _ (Inv_typingUpdate st _ _ (keysNodup_setKey _ _ _ hty) ?_
    ⟨hgc, hinfo, hty, hmem, htymem⟩)
  intro q hq
  rcases mem_setKey_nodup _ _ _ hty q hq with h1 | h1
  · subst h1
    refine nodup_addElem _ _ ?_
    cases ht : lookupL st.typing_users g with
    | none => simp
    | some ts =>
        have := htymem (g, ts) (lookupL_mem _ _ _ ht)
        simpa using this
  · exact htymem q h1.1

theorem Inv_clear_typing (st : MState) (g u : String) (phi : Nat → Bool)
    (hInv : Inv st) : Inv (clear_typing st g u phi).1 := by
  obtain ⟨hgc, hinfo, hty, hmem, htymem⟩ := hInv
  unfold clear_typing
  cases ht : lookupL st.typing_users g with
  | none =>
      exact Inv_run _ _ _ _ (Inv_typingUpdate st _ _ hty htymem
        ⟨hgc, hinfo, hty, hmem, htymem⟩)
  | some ts =>
      refine Inv_run _ _ _ _ (Inv_typingUpdate st _ _ (keysNodup_setKey _ _ _ hty) ?_
        ⟨hgc, hinfo, hty, hmem, htymem⟩)
      intro q hq
      rcases mem_setKey_nodup _ _ _ hty q hq with h1 | h1
      · subst h1
        exact (htymem _ (lookupL_mem _ _ _ ht)).erase _
      · exact htymem q h1.1

theorem Inv_broadcast_message_edit (st : MState) (g mid content : String)
    (phi : Nat → Bool) (hInv : Inv st) :
    Inv (broadcast_message_edit st g mid content phi).1 :=
  Inv_run _ _ _ _ hInv

theorem Inv_broadcast_message_delete (st : MState) (g mid : String)
    (phi : Nat → Bool) (hInv : Inv st) :
    Inv (broadcast_message_delete st g mid phi).1 :=
  Inv_run _ _ _ _ hInv

theorem Inv_broadcast_member_joined (st : MState) (g : String) (userData : InVal)
    (phi : Nat → Bool) (hInv : Inv st) :
    Inv (broadcast_member_joined st g userData phi).1 :=
  Inv_run _ _ _ _ hInv

theorem Inv_broadcast_member_left (st : MState) (g u : String)
    (phi : Nat → Bool) (hInv : Inv st) :
    Inv (broadcast_member_left st g u phi).1 :=
  Inv_run _ _ _ _ hInv

theorem Inv_broadcast_reaction (st : MState) (g mid emoji uid action : String)
    (phi : Nat → Bool) (hInv : Inv st) :
    Inv (broadcast_reaction st g mid emoji uid action phi).1 :=
  Inv_run _ _ _ _ hInv

theorem Inv_broadcast_pin (st : MState) (g mid : String) (isPinned : Bool)
    (uid : String) (phi : Nat → Bool) (hInv : Inv st) :
    Inv (broadcast_pin st g mid isPinned uid phi).1 :=
  Inv_run _ _ _ _ hInv

theorem Inv_broadcast_poll (st : MState) (g : String) (pollData : InVal)
    (action : String) (phi : Nat → Bool) (hInv : Inv st) :
    Inv (broadcast_poll st g pollData action phi).1 :=
  Inv_run _ _ _ _ hInv

theorem Inv_broadcast_poll_vote (st : MState) (g pid uid : String)
    (phi : Nat → Bool) (hInv : Inv st) :
    Inv (broadcast_poll_vote st g pid uid phi).1 :=
  Inv_run _ _ _ _ hInv

theorem Inv_broadcast_read (st : MState) (g mid uid : String)
    (phi : Nat → Bool) (hInv : Inv st) :
    Inv (broadcast_read st g mid uid phi).1 :=
  Inv_run _ _ _ _ hInv

theorem Inv_handleFrame (st : MState) (g u un : String) (ws : Nat)
    (frame : List (String × InVal)) (persist : Option InVal) (phi : Nat → Bool)
    (hInv : Inv st) : Inv (handleFrame st g u un ws frame persist phi).1 := by
  unfold handleFrame
  dsimp only
  repeat' (first | split | dsimp only)
  all_goals
    first
    | exact hInv
    | exact Inv_set_typing _ _ _ _ _ hInv
    | exact Inv_clear_typing _ _ _ _ hInv
    | exact Inv_clear_typing _ _ _ _ (Inv_broadcast_message _ _ _ _ hInv)

/- ------------------------------------------------------------------ -/
/- Generic facts about the broadcast engine.                          -/
/- ------------------------------------------------------------------ -/

/-- The engine never creates connection records: a handle without a
    record stays without one. -/
theorem run_info_none (c : Nat) : ∀ (st : MState) (jobs : List Job) (phi : Nat → Bool)
    (locked : Bool), lookupL st.connection_info c = none →
    lookupL (run st jobs phi locked).1.connection_info c = none := by
  intro st jobs phi locked
  induction st, jobs, phi, locked using run.induct with
  | case1 st phi locked =>
      intro h
      rw [run_nil]
      exact h
  | case2 st phi locked g m e rest hlook ih =>
      intro h
      rw [run_bcast_none _ _ _ _ _ _ _ hlook]
      exact ih h
  | case3 st phi locked g m e rest conns hlook targets dead ih =>
      intro h
      rw [run_bcast_some _ _ _ _ _ _ _ _ hlook]
      exact ih h
  | case4 st phi d rest =>
      intro h
      rw [run_disc_locked]
      exact h
  | case5 st phi d rest hlook ih =>
      intro h
      rw [run_disc_none _ _ _ _ hlook]
      exact ih h
  | case6 st phi d rest p hlook ih =>
      intro h
      rw [run_disc_some _ _ _ _ _ hlook]
      refine ih ?_
      rw [discState_info]
      exact lookupL_eraseKey_none _ _ _ h
  | case7 st phi locked rest ih =>
      intro h
      rw [run_rel]
      exact ih h

/-- A single disconnect never adds a user to a typing set. -/
theorem discState_typing_not_mem (st : MState) (d : Nat) (p : String × String)
    (g u : String) (h : u ∉ get_typing_users st g) :
    u ∉ get_typing_users (discState st d p) g := by
  cases ht : lookupL st.typing_users p.2 with
  | none =>
      unfold get_typing_users
      rw [discState_ty_none _ _ _ ht]
      exact h
  | some ts =>
      unfold get_typing_users
      rw [discState_ty_some _ _ _ _ ht]
      by_cases hg : g = p.2
      · subst hg
        rw [lookupL_setKey_self]
        intro hmem
        apply h
        unfold get_typing_users
        rw [ht]
        simp only [Option.getD_some] at hmem ⊢
        exact List.mem_of_mem_erase hmem
      · rw [lookupL_setKey_ne _ _ _ _ hg]
        exact h

/-- The engine never adds a user to a typing set. -/
theorem run_typing_not_mem (g u : String) :
    ∀ (st : MState) (jobs : List Job) (phi : Nat → Bool) (locked : Bool),
    u ∉ get_typing_users st g →
    u ∉ get_typing_users (run st jobs phi locked).1 g := by
  intro st jobs phi locked
  induction st, jobs, phi, locked using run.induct with
  | case1 st phi locked =>
      intro h
      rw [run_nil]
      exact h
  | case2 st phi locked g2 m e rest hlook ih =>
      intro h
      rw [run_bcast_none _ _ _ _ _ _ _ hlook]
      exact ih h
  | case3 st phi locked g2 m e rest conns hlook targets dead ih =>
      intro h
      rw [run_bcast_some _ _ _ _ _ _ _ _ hlook]
      exact ih h
  | case4 st phi d rest =>
      intro h
      rw [run_disc_locked]
      exact h
  | case5 st phi d rest hlook ih =>
      intro h
      rw [run_disc_none _ _ _ _ hlook]
      exact ih h
  | case6 st phi d rest p hlook ih =>
      intro h
      rw [run_disc_some _ _ _ _ _ hlook]
      exact ih (discState_typing_not_mem st d p g u h)
  | case7 st phi locked rest ih =>
      intro h
      rw [run_rel]
      exact ih h

/-- When no targeted connection is dead, a broadcast delivers to every
    target, in room-set order, and leaves the registry untouched. -/
theorem run_bcast_all_live (st : MState) (phi : Nat → Bool) (locked : Bool)
    (g : String) (m : Msg) (e : Option Nat) (conns : List Nat)
    (h : lookupL st.group_connections g = some conns)
    (hlive : ∀ d ∈ bTargets conns e, phi d = false) :
    run st [Job.bcast g m e] phi locked =
      (st, (bTargets conns e).map (fun d => TraceEntry.sent d m)) := by
  rw [run_bcast_some _ _ _ _ _ _ _ _ h]
  have hdead : (bTargets conns e).filter phi = [] := by
    rw [List.filter_eq_nil_iff]
    intro a ha
    simp [hlive a ha]
  rw [hdead]
  simp only [List.map_nil, List.nil_append, run_nil]
  have hmap : (bTargets conns e).map
      (fun d => if phi d then TraceEntry.failed d m else TraceEntry.sent d m) =
      (bTargets conns e).map (fun d => TraceEntry.sent d m) := by
    apply List.map_congr_left
    intro d hd
    rw [hlive d hd]
    simp
  rw [hmap]
  simp

/-- Membership in the target list of a broadcast. -/
theorem mem_bTargets (l : List Nat) (x : Option Nat) (d : Nat) :
    d ∈ bTargets l x ↔ d ∈ l ∧ some d ≠ x := by
  unfold bTargets
  rw [List.mem_filter]
  simp

/-- A broadcast without exclusion targets the whole room set. -/
theorem bTargets_none (l : List Nat) : bTargets l none = l := by
  unfold bTargets
  simp

/-- A single broadcast job over a room whose connections are all live:
    the registry is untouched and the event is delivered to every target
    (empty trace for an unknown room). -/
theorem bcast_op_state (st : MState) (g : String) (m : Msg) (e : Option Nat)
    (phi : Nat → Bool) (locked : Bool)
    (hlive : ∀ d ∈ list_connections st g, phi d = false) :
    run st [Job.bcast g m e] phi locked =
      (st, (bTargets (list_connections st g) e).map (fun d => TraceEntry.sent d m)) := by
  cases hg : lookupL st.group_connections g with
  | none =>
      rw [run_bcast_none _ _ _ _ _ _ _ hg, run_nil]
      unfold list_connections
      rw [hg]
      rfl
  | some conns =>
      have hlc : list_connections st g = conns := by
        unfold list_connections
        rw [hg]
        rfl
      rw [hlc]
      refine run_bcast_all_live _ _ _ _ _ _ _ hg ?_
      intro d hd
      refine hlive d ?_
      rw [hlc]
      exact List.mem_of_mem_filter hd

/-- The states reachable through the protocol's operations, starting from
    the empty manager.  Registration only happens for a fresh transport
    handle: the route handler creates a new WebSocket object per session
    and registers it exactly once (websocket_routes.py line 98), so
    re-registering a live handle is impossible in the protocol (spec 4.1:
    re-registration of the same handle is a caller bug). -/
inductive Reachable : MState → Prop
| init : Reachable initState
| connect_step (st : MState) (ws : Nat) (g u : String) (phi : Nat → Bool) :
    Reachable st → lookupL st.connection_info ws = none →
    Reachable (connect st ws g u phi).1
| disconnect_step (st : MState) (ws : Nat) (phi : Nat → Bool) :
    Reachable st → Reachable (disconnect st ws phi).1
| broadcast_step (st : MState) (g : String) (m : Msg) (e : Option Nat)
    (phi : Nat → Bool) : Reachable st → Reachable (broadcast_to_group st g m e phi).1
| broadcast_message_step (st : MState) (g : String) (p : InVal) (phi : Nat → Bool) :
    Reachable st → Reachable (broadcast_message st g p phi).1
| set_typing_step (st : MState) (g u name : String) (phi : Nat → Bool) :
    Reachable st → Reachable (set_typing st g u name phi).1
| clear_typing_step (st : MState) (g u : String) (phi : Nat → Bool) :
    Reachable st → Reachable (clear_typing st g u phi).1
| edit_step (st : MState) (g mid content : String) (phi : Nat → Bool) :
    Reachable st → Reachable (broadcast_message_edit st g mid content phi).1
| delete_step (st : MState) (g mid : String) (phi : Nat → Bool) :
    Reachable st → Reachable (broadcast_message_delete st g mid phi).1
| member_joined_step (st : MState) (g : String) (userData : InVal) (phi : Nat → Bool) :
    Reachable st → Reachable (broadcast_member_joined st g userData phi).1
| member_left_step (st : MState) (g u : String) (phi : Nat → Bool) :
    Reachable st → Reachable (broadcast_member_left st g u phi).1
| reaction_step (st : MState) (g mid emoji uid action : String) (phi : Nat → Bool) :
    Reachable st → Reachable (broadcast_reaction st g mid emoji uid action phi).1
| pin_step (st : MState) (g mid : String) (isPinned : Bool) (uid : String)
    (phi : Nat → Bool) : Reachable st → Reachable (broadcast_pin st g mid isPinned uid phi).1
| poll_step (st : MState) (g : String) (pollData : InVal) (action : String)
    (phi : Nat → Bool) : Reachable st → Reachable (broadcast_poll st g pollData action phi).1
| poll_vote_step (st : MState) (g pid uid : String) (phi : Nat → Bool) :
    Reachable st → Reachable (broadcast_poll_vote st g pid uid phi).1
| read_step (st : MState) (g mid uid : String) (phi : Nat → Bool) :
    Reachable st → Reachable (broadcast_read st g mid uid phi).1
| handle_step (st : MState) (g u un : String) (ws : Nat)
    (frame : List (String × InVal)) (persist : Option InVal) (phi : Nat → Bool) :
    Reachable st → Reachable (handleFrame st g u un ws frame persist phi).1

/-- Every reachable state satisfies the registry invariant. -/
theorem reachable_Inv (st : MState) (h : Reachable st) : Inv st := by
  induction h with
  | init => exact Inv_initState
  | connect_step st ws g u phi _ hfresh ih => exact Inv_connect st ws g u phi ih hfresh
  | disconnect_step st ws phi _ ih => exact Inv_disconnect st ws phi ih
  | broadcast_step st g m e phi _ ih => exact Inv_broadcast_to_group st g m e phi ih
  | broadcast_message_step st g p phi _ ih => exact Inv_broadcast_message st g p phi ih
  | set_typing_step st g u name phi _ ih => exact Inv_set_typing st g u name phi ih
  | clear_typing_step st g u phi _ ih => exact Inv_clear_typing st g u phi ih
  | edit_step st g mid content phi _ ih => exact Inv_broadcast_message_edit st g mid content phi ih
  | delete_step st g mid phi _ ih => exact Inv_broadcast_message_delete st g mid phi ih
  | member_joined_step st g userData phi _ ih => exact Inv_broadcast_member_joined st g userData phi ih
  | member_left_step st g u phi _ ih => exact Inv_broadcast_member_left st g u phi ih
  | reaction_step st g mid emoji uid action phi _ ih =>
      exact Inv_broadcast_reaction st g mid emoji uid action phi ih
  | pin_step st g mid isPinned uid phi _ ih => exact Inv_broadcast_pin st g mid isPinned uid phi ih
  | poll_step st g pollData action phi _ ih => exact Inv_broadcast_poll st g pollData action phi ih
  | poll_vote_step st g pid uid phi _ ih => exact Inv_broadcast_poll_vote st g pid uid phi ih
  | read_step st g mid uid phi _ ih => exact Inv_broadcast_read st g mid uid phi ih
  | handle_step st g u un ws frame persist phi _ ih =>
      exact Inv_handleFrame st g u un ws frame persist phi ih

/-- Unfolding of connect (the let-bindings made explicit). -/
theorem connect_def (st : MState) (ws : Nat) (g u : String) (phi : Nat → Bool) :
    connect st ws g u phi =
      run (bumpClock (connectState st ws g u))
        [Job.bcast g (userOnlineMsg u (connectState st ws g u).clock) (some ws)]
        phi false := rfl

/-- Counting an element of the image of filterMap. -/
theorem count_filterMap {α β : Type} [DecidableEq β] (f : α → Option β) (l : List α)
    (b : β) : (l.filterMap f).count b =
      (l.filter (fun a => f a == some b)).length := by
  induction l with
  | nil => rfl
  | cons a t ih =>
      cases hf : f a with
      | none => simp [List.filterMap_cons, hf, List.filter_cons, ih]
      | some b2 =>
          by_cases hb : b2 = b
          · subst hb
            simp [List.filterMap_cons, hf, List.filter_cons, List.count_cons, ih]
          · simp [List.filterMap_cons, hf, List.filter_cons, List.count_cons, hb, ih]

/- ------------------------------------------------------------------ -/
/- Claims.                                                            -/
/- ------------------------------------------------------------------ -/

/-- C2: Deregister (disconnect) is idempotent: after a first disconnect
    of a connection completes, the handle has no connection record (the
    second pop finds nothing), and a second disconnect returns the state
    unchanged (registry maps, typing sets and clock) and broadcasts
    nothing. -/
theorem C2_deregister_idempotent (st : MState) (ws : Nat) (phi phi2 : Nat → Bool)
    (hnd : keysNodup st.connection_info) :
    lookupL (disconnect st ws phi).1.connection_info ws = none ∧
    disconnect (disconnect st ws phi).1 ws phi2 = ((disconnect st ws phi).1, []) := by
  have h1 : lookupL (disconnect st ws phi).1.connection_info ws = none := by
    unfold disconnect
    cases hws : lookupL st.connection_info ws with
    | none =>
        rw [run_disc_none _ _ _ _ hws, run_nil]
        exact hws
    | some p =>
        rw [run_disc_some _ _ _ _ _ hws]
        refine run_info_none ws _ _ _ _ ?_
        rw [discState_info]
        exact lookupL_eraseKey_self _ _ hnd
  refine ⟨h1, ?_⟩
  unfold disconnect at h1 ⊢
  rw [run_disc_none _ _ _ _ h1, run_nil]

theorem C2_witness :
    lookupL (disconnect (⟨[("R", [1])], [(1, ("u", "R"))], [], 1⟩ : MState) 1
        phiNone).1.connection_info 1 = none ∧
    disconnect (disconnect (⟨[("R", [1])], [(1, ("u", "R"))], [], 1⟩ : MState) 1 phiNone).1
        1 phiNone =
      ((disconnect (⟨[("R", [1])], [(1, ("u", "R"))], [], 1⟩ : MState) 1 phiNone).1, []) :=
  C2_deregister_idempotent _ 1 phiNone phiNone (by decide)

/-- C3: in every state reachable by the protocol's operations, a
    connection handle appears in at most one room's membership set. -/
theorem C3_at_most_one_room (st : MState) (h : Reachable st) (c : Nat) (g1 g2 : String)
    (h1 : c ∈ list_connections st g1) (h2 : c ∈ list_connections st g2) : g1 = g2 := by
  obtain ⟨_, _, _, hmem, _⟩ := reachable_Inv st h
  unfold list_connections at h1 h2
  cases hg1 : lookupL st.group_connections g1 with
  | none =>
      rw [hg1] at h1
      simp at h1
  | some l1 =>
      cases hg2 : lookupL st.group_connections g2 with
      | none =>
          rw [hg2] at h2
          simp at h2
      | some l2 =>
          rw [hg1] at h1
          rw [hg2] at h2
          simp only [Option.getD_some] at h1 h2
          have e1 := (hmem _ (lookupL_mem _ _ _ hg1)).2.2 c h1
          have e2 := (hmem _ (lookupL_mem _ _ _ hg2)).2.2 c h2
          rw [e1] at e2
          injection e2

theorem C3_witness :
    1 ∈ list_connections (connect initState 1 "R" "u" phiNone).1 "R" ∧
    ("R" : String) = "R" := by
  have hreach : Reachable (connect initState 1 "R" "u" phiNone).1 :=
    Reachable.connect_step initState 1 "R" "u" phiNone Reachable.init (by decide)
  have hmem : 1 ∈ list_connections (connect initState 1 "R" "u" phiNone).1 "R" := by
    simp +decide [connect_def, run_bcast_some, run_nil, lookupL, setKey, addElem, bTargets,
      connectState, bumpClock, initState, phiNone, list_connections]
  exact ⟨hmem, C3_at_most_one_room _ hreach 1 "R" "R" hmem hmem⟩

/-- C4 counterexample: the claim asserts that no entry of the
    room-to-typing-set map has an empty set.  But clear_typing (and
    disconnect) only discard the user from the typing set and never
    delete the entry, so after SetTyping(R, bob); ClearTyping(R, bob) the
    reachable state maps "R" to the empty typing set. -/
theorem C4_counterexample :
    Reachable (clear_typing (set_typing initState "R" "bob" "Bob" phiNone).1
      "R" "bob" phiNone).1 ∧
    lookupL (clear_typing (set_typing initState "R" "bob" "Bob" phiNone).1
      "R" "bob" phiNone).1.typing_users "R" = some [] := by
  constructor
  · exact Reachable.clear_typing_step _ _ _ _
      (Reachable.set_typing_step _ _ _ _ _ Reachable.init)
  · simp +decide [set_typing, clear_typing, run_bcast_none, run_nil, lookupL, setKey,
      addElem, initState]

/-- C4 (amended): in every reachable state the room-to-connections map
    has no entry with an empty membership set (sets are created on first
    connection and deleted when the last member leaves), and a room
    without an entry yields empty ListConnections and empty
    get_online_users.  The typing map does NOT satisfy this: it may
    retain an entry holding the empty set (see the counterexample). -/
theorem C4_amended (st : MState) (h : Reachable st) :
    (∀ p ∈ st.group_connections, p.2 ≠ []) ∧
    (∀ g, lookupL st.group_connections g = none →
      list_connections st g = [] ∧ get_online_users st g = []) := by
  obtain ⟨_, _, _, hmem, _⟩ := reachable_Inv st h
  refine ⟨fun p hp => (hmem p hp).1, ?_⟩
  intro g hg
  constructor
  · unfold list_connections
    rw [hg]
    rfl
  · unfold get_online_users
    rw [hg]

theorem C4_witness :
    list_connections (connect initState 1 "R" "u" phiNone).1 "Q" = [] ∧
    get_online_users (connect initState 1 "R" "u" phiNone).1 "Q" = [] := by
  have hreach : Reachable (connect initState 1 "R" "u" phiNone).1 :=
    Reachable.connect_step initState 1 "R" "u" phiNone Reachable.init (by decide)
  refine (C4_amended _ hreach).2 "Q" ?_
  simp +decide [connect_def, run_bcast_some, run_nil, lookupL, setKey, addElem, bTargets,
    connectState, bumpClock, initState, phiNone]

/-- C5 counterexample: get_online_users does not deduplicate.  With two
    live connections of the same user "u" in room "R" (a reachable
    state), it returns ["u", "u"], so a user identifier occurs more than
    once, contradicting the claimed distinctness. -/
theorem C5_counterexample :
    Reachable (connect (connect initState 1 "R" "u" phiNone).1 2 "R" "u" phiNone).1 ∧
    get_online_users (connect (connect initState 1 "R" "u" phiNone).1 2 "R" "u"
      phiNone).1 "R" = ["u", "u"] ∧
    ¬ (get_online_users (connect (connect initState 1 "R" "u" phiNone).1 2 "R" "u"
      phiNone).1 "R").Nodup := by
  have hfresh : lookupL (connect initState 1 "R" "u" phiNone).1.connection_info 2 = none := by
    simp +decide [connect_def, run_bcast_some, run_nil, lookupL, setKey, addElem, bTargets,
      connectState, bumpClock, initState, phiNone]
  have hreach : Reachable (connect (connect initState 1 "R" "u" phiNone).1 2 "R" "u" phiNone).1 :=
    Reachable.connect_step _ 2 "R" "u" phiNone
      (Reachable.connect_step initState 1 "R" "u" phiNone Reachable.init (by decide)) hfresh
  have honline : get_online_users (connect (connect initState 1 "R" "u" phiNone).1 2 "R" "u"
      phiNone).1 "R" = ["u", "u"] := by
    simp +decide [connect_def, run_bcast_some, run_nil, lookupL, setKey, addElem, bTargets,
      connectState, bumpClock, initState, phiNone, get_online_users]
  refine ⟨hreach, honline, ?_⟩
  rw [honline]
  decide

/-- C5 (amended): get_online_users returns one user identifier per
    connection of the room that has a connection record (so a user with
    several live connections appears once per connection, NOT
    deduplicated); the members of the result are exactly the users owning
    a connection in the room, and the result is empty for an unknown
    room. -/
theorem C5_amended (st : MState) (g : String) :
    (lookupL st.group_connections g = none → get_online_users st g = []) ∧
    (∀ uid, uid ∈ get_online_users st g ↔
      ∃ c ∈ list_connections st g, ∃ q, lookupL st.connection_info c = some q ∧
        q.1 = uid) ∧
    (∀ uid, (get_online_users st g).count uid =
      ((list_connections st g).filter
        (fun c => (lookupL st.connection_info c).map Prod.fst == some uid)).length) := by
  refine ⟨?_, ?_, ?_⟩
  · intro hg
    unfold get_online_users
    rw [hg]
  · intro uid
    unfold get_online_users list_connections
    cases hg : lookupL st.group_connections g with
    | none => simp
    | some conns =>
        simp only [Option.getD_some, List.mem_filterMap]
        constructor
        · rintro ⟨c, hc, hf⟩
          rcases Option.map_eq_some'.mp hf with ⟨q, hq, hq2⟩
          exact ⟨c, hc, q, hq, hq2⟩
        · rintro ⟨c, hc, q, hq, hq2⟩
          exact ⟨c, hc, by rw [hq, Option.map_some', hq2]⟩
  · intro uid
    unfold get_online_users list_connections
    cases hg : lookupL st.group_connections g with
    | none => simp
    | some conns =>
        simp only [Option.getD_some]
        exact count_filterMap _ _ _

theorem C5_witness :
    ((get_online_users (⟨[("R", [1, 2])], [(1, ("u", "R")), (2, ("u", "R"))], [], 2⟩ : MState)
        "R").count "u" =
      ((list_connections (⟨[("R", [1, 2])], [(1, ("u", "R")), (2, ("u", "R"))], [], 2⟩ : MState)
        "R").filter (fun c =>
          (lookupL (⟨[("R", [1, 2])], [(1, ("u", "R")), (2, ("u", "R"))], [], 2⟩ :
            MState).connection_info c).map Prod.fst == some "u")).length) ∧
    get_online_users (⟨[("R", [1, 2])], [(1, ("u", "R")), (2, ("u", "R"))], [], 2⟩ : MState)
      "Q" = [] :=
  ⟨(C5_amended _ "R").2.2 "u", (C5_amended _ "Q").1 (by decide)⟩

/-- C10: a frame that parses as a JSON object but whose type field is
    none of the five recognized kinds (message, typing, stop_typing,
    read, ping) falls through every dispatch branch: the registry and
    typing state are untouched, no outbound event or database call is
    made, and the receive loop continues. -/
theorem C10_unknown_type_ignored (st : MState) (g u un : String) (ws : Nat)
    (frame : List (String × InVal)) (persist : Option InVal) (phi : Nat → Bool)
    (h : ∀ s, getTypeStr frame = some s →
      s ≠ "message" ∧ s ≠ "typing" ∧ s ≠ "stop_typing" ∧ s ≠ "read" ∧ s ≠ "ping") :
    handleFrame st g u un ws frame persist phi = (st, [], true) := by
  unfold handleFrame
  cases hty : getTypeStr frame with
  | none => rfl
  | some s =>
      obtain ⟨h1, h2, h3, h4, h5⟩ := h s hty
      split
      all_goals simp_all

theorem C10_witness :
    handleFrame initState "R" "u" "U" 7 [("type", InVal.str "subscribe")] none phiNone =
      (initState, [], true) := by
  refine C10_unknown_type_ignored _ _ _ _ _ _ _ _ ?_
  intro s hs
  simp [getTypeStr, lookupL] at hs
  subst hs
  exact ⟨by decide, by decide, by decide, by decide, by decide⟩

/-- C6: Broadcast with an exclude argument attempts no delivery to the
    excluded connection and delivers the event exactly once to every
    other (live) connection of the room.  After Register(c, r, u), a
    Broadcast(r, e, exclude = c) leaves the registry untouched and its
    trace is exactly one successful send of e per non-excluded room
    member; in particular the user_online broadcast performed by connect
    itself never targets the newly registered connection.  Deliverability
    of e to the other members presumes their transports are live; a dead
    member is instead handled by the failure path (claim C1). -/
theorem C6_broadcast_exclude (st : MState) (ws : Nat) (g u : String) (e : Msg)
    (phi : Nat → Bool) (hInv : Inv st)
    (hlive : ∀ d ∈ list_connections st g, d ≠ ws → phi d = false) :
    (∀ m2, TraceEntry.sent ws m2 ∉ (connect st ws g u phi).2 ∧
           TraceEntry.failed ws m2 ∉ (connect st ws g u phi).2) ∧
    broadcast_to_group (connect st ws g u phi).1 g e (some ws) phi =
      ((connect st ws g u phi).1,
       (bTargets (list_connections (connect st ws g u phi).1 g) (some ws)).map
         (fun d => TraceEntry.sent d e)) ∧
    ws ∉ bTargets (list_connections (connect st ws g u phi).1 g) (some ws) ∧
    (∀ d, d ∈ bTargets (list_connections (connect st ws g u phi).1 g) (some ws) ↔
      d ∈ list_connections (connect st ws g u phi).1 g ∧ d ≠ ws) ∧
    (bTargets (list_connections (connect st ws g u phi).1 g) (some ws)).Nodup := by
  have hlook1 : lookupL (bumpClock (connectState st ws g u)).group_connections g =
      some (addElem ((lookupL st.group_connections g).getD []) ws) :=
    lookupL_setKey_self _ _ _
  have hconns0Nodup : ((lookupL st.group_connections g).getD []).Nodup := by
    cases hg : lookupL st.group_connections g with
    | none => simp
    | some l =>
        obtain ⟨_, _, _, hmem, _⟩ := hInv
        simpa using (hmem _ (lookupL_mem _ _ _ hg)).2.1
  have htlive : ∀ d ∈ bTargets (addElem ((lookupL st.group_connections g).getD []) ws)
      (some ws), phi d = false := by
    intro d hd
    rw [mem_bTargets] at hd
    have hdne : d ≠ ws := by simpa using hd.2
    rcases (mem_addElem _ _ _).mp hd.1 with h0 | h0
    · exact absurd h0 hdne
    · exact hlive d (by unfold list_connections; exact h0) hdne
  have hconnect : connect st ws g u phi =
      (bumpClock (connectState st ws g u),
       (bTargets (addElem ((lookupL st.group_connections g).getD []) ws) (some ws)).map
         (fun d => TraceEntry.sent d (userOnlineMsg u (connectState st ws g u).clock))) := by
    rw [connect_def]
    exact run_bcast_all_live _ _ _ _ _ _ _ hlook1 htlive
  have hroom : list_connections (connect st ws g u phi).1 g =
      addElem ((lookupL st.group_connections g).getD []) ws := by
    rw [hconnect]
    unfold list_connections
    rw [hlook1]
    rfl
  have hwsnot : ws ∉ bTargets (addElem ((lookupL st.group_connections g).getD []) ws)
      (some ws) := by
    rw [mem_bTargets]
    simp
  refine ⟨?_, ?_, ?_, ?_, ?_⟩
  · intro m2
    rw [hconnect]
    constructor
    · intro hmem2
      rcases List.mem_map.mp hmem2 with ⟨d, hd, hde⟩
      injection hde with hde1 hde2
      subst hde1
      exact hwsnot hd
    · intro hmem2
      rcases List.mem_map.mp hmem2 with ⟨d, hd, hde⟩
      cases hde
  · rw [hroom]
    have hlive2 : ∀ d ∈ bTargets (addElem ((lookupL st.group_connections g).getD []) ws)
        (some ws), phi d = false := htlive
    rw [hconnect]
    unfold broadcast_to_group
    exact run_bcast_all_live _ _ _ _ _ _ _ hlook1 hlive2
  · rw [hroom]
    exact hwsnot
  · intro d
    rw [hroom, mem_bTargets]
    simp
  · rw [hroom]
    exact List.Nodup.filter _ (nodup_addElem _ _ hconns0Nodup)

theorem C6_witness :
    broadcast_to_group
        (connect (⟨[("R", [1, 2])], [(1, ("alice", "R")), (2, ("bob", "R"))], [], 2⟩ : MState)
          3 "R" "carol" phiNone).1 "R" (messageDeletedMsg "m1" 50) (some 3) phiNone =
      ((connect (⟨[("R", [1, 2])], [(1, ("alice", "R")), (2, ("bob", "R"))], [], 2⟩ : MState)
          3 "R" "carol" phiNone).1,
       (bTargets (list_connections
           (connect (⟨[("R", [1, 2])], [(1, ("alice", "R")), (2, ("bob", "R"))], [], 2⟩ : MState)
             3 "R" "carol" phiNone).1 "R") (some 3)).map
         (fun d => TraceEntry.sent d (messageDeletedMsg "m1" 50))) ∧
    3 ∉ bTargets (list_connections
        (connect (⟨[("R", [1, 2])], [(1, ("alice", "R")), (2, ("bob", "R"))], [], 2⟩ : MState)
          3 "R" "carol" phiNone).1 "R") (some 3) :=
  ⟨(C6_broadcast_exclude _ 3 "R" "carol" (messageDeletedMsg "m1" 50) phiNone (by decide)
      (by decide)).2.1,
   (C6_broadcast_exclude _ 3 "R" "carol" (messageDeletedMsg "m1" 50) phiNone (by decide)
      (by decide)).2.2.1⟩

/-- set_typing under a fully live room: the typing set gains the user
    and the typing_start event is delivered to the whole room. -/
theorem set_typing_live (x : MState) (g u name : String) (phi : Nat → Bool)
    (hlive : ∀ d ∈ list_connections x g, phi d = false) :
    set_typing x g u name phi =
      ({ x with
          typing_users := setKey x.typing_users g
            (addElem ((lookupL x.typing_users g).getD []) u)
          clock := x.clock + 1 },
       (list_connections x g).map
         (fun d => TraceEntry.sent d (typingStartMsg u name x.clock))) := by
  unfold set_typing
  rw [bcast_op_state]
  · rw [bTargets_none]
    rfl
  · intro d hd
    exact hlive d hd

/-- clear_typing under a fully live room, when the room has a typing
    set: the user is discarded (entry kept) and the typing_stop event is
    delivered to the whole room. -/
theorem clear_typing_live (x : MState) (g u : String) (phi : Nat → Bool)
    (ts : List String) (hts : lookupL x.typing_users g = some ts)
    (hlive : ∀ d ∈ list_connections x g, phi d = false) :
    clear_typing x g u phi =
      ({ x with
          typing_users := setKey x.typing_users g (ts.erase u)
          clock := x.clock + 1 },
       (list_connections x g).map
         (fun d => TraceEntry.sent d (typingStopMsg u x.clock))) := by
  unfold clear_typing
  rw [hts]
  rw [bcast_op_state]
  · rw [bTargets_none]
    rfl
  · intro d hd
    exact hlive d hd

/-- C8 counterexample: the claim says a second ClearTyping has no
    observable effect beyond the first call, but clear_typing broadcasts
    a typing_stop event unconditionally (lines 157-161): in a reachable
    state with a live observer connection in the room, the second
    ClearTyping's trace is nonempty. -/
theorem C8_counterexample :
    Reachable (clear_typing (set_typing (connect initState 1 "R" "alice" phiNone).1
      "R" "bob" "Bob" phiNone).1 "R" "bob" phiNone).1 ∧
    (clear_typing (clear_typing (set_typing (connect initState 1 "R" "alice" phiNone).1
      "R" "bob" "Bob" phiNone).1 "R" "bob" phiNone).1 "R" "bob" phiNone).2 ≠ [] := by
  constructor
  · exact Reachable.clear_typing_step _ _ _ _
      (Reachable.set_typing_step _ _ _ _ _
        (Reachable.connect_step initState 1 "R" "alice" phiNone Reachable.init (by decide)))
  · simp +decide [connect_def, set_typing, clear_typing, run_bcast_some, run_bcast_none,
      run_nil, lookupL, setKey, eraseKey, addElem, bTargets, connectState, bumpClock,
      initState, phiNone]

/-- C8 (amended): SetTyping(r, u) then ClearTyping(r, u) leaves the
    typing list free of u; a second ClearTyping(r, u) leaves every
    registry map unchanged (the typing set is already without u) but is
    NOT observation-free: it broadcasts another typing_stop event for u
    to the whole room.  Stated for rooms whose connections are live (a
    dead connection would additionally trigger C1's cleanup). -/
theorem C8_amended (st : MState) (g u name : String) (phi : Nat → Bool)
    (hInv : Inv st)
    (hlive : ∀ d ∈ list_connections st g, phi d = false) :
    u ∉ get_typing_users (clear_typing (set_typing st g u name phi).1 g u phi).1 g ∧
    (clear_typing (clear_typing (set_typing st g u name phi).1 g u phi).1 g u
        phi).1.group_connections =
      (clear_typing (set_typing st g u name phi).1 g u phi).1.group_connections ∧
    (clear_typing (clear_typing (set_typing st g u name phi).1 g u phi).1 g u
        phi).1.connection_info =
      (clear_typing (set_typing st g u name phi).1 g u phi).1.connection_info ∧
    (clear_typing (clear_typing (set_typing st g u name phi).1 g u phi).1 g u
        phi).1.typing_users =
      (clear_typing (set_typing st g u name phi).1 g u phi).1.typing_users ∧
    (clear_typing (clear_typing (set_typing st g u name phi).1 g u phi).1 g u phi).2 =
      (list_connections (clear_typing (set_typing st g u name phi).1 g u phi).1 g).map
        (fun d => TraceEntry.sent d
          (typingStopMsg u (clear_typing (set_typing st g u name phi).1 g u phi).1.clock)) := by
  obtain ⟨hgc, hinfo, hty, hmemInv, htymem⟩ := hInv
  have hts0Nodup : ((lookupL st.typing_users g).getD []).Nodup := by
    cases ht : lookupL st.typing_users g with
    | none => simp
    | some ts => simpa using htymem _ (lookupL_mem _ _ _ ht)
  have hstep1 := set_typing_live st g u name phi hlive
  have e1 : (set_typing st g u name phi).1 =
      { st with
        typing_users := setKey st.typing_users g
          (addElem ((lookupL st.typing_users g).getD []) u)
        clock := st.clock + 1 } := by
    rw [hstep1]
  have h1ty : lookupL (set_typing st g u name phi).1.typing_users g =
      some (addElem ((lookupL st.typing_users g).getD []) u) := by
    rw [e1]
    exact lookupL_setKey_self _ _ _
  have h1lc : list_connections (set_typing st g u name phi).1 g = list_connections st g := by
    rw [e1]
    rfl
  have hlv1 : ∀ d ∈ list_connections (set_typing st g u name phi).1 g, phi d = false := by
    intro d hd
    rw [h1lc] at hd
    exact hlive d hd
  have hstep2 := clear_typing_live (set_typing st g u name phi).1 g u phi
    (addElem ((lookupL st.typing_users g).getD []) u) h1ty hlv1
  have e2 : (clear_typing (set_typing st g u name phi).1 g u phi).1 =
      { (set_typing st g u name phi).1 with
        typing_users := setKey (set_typing st g u name phi).1.typing_users g
          ((addElem ((lookupL st.typing_users g).getD []) u).erase u)
        clock := (set_typing st g u name phi).1.clock + 1 } := by
    rw [hstep2]
  have h2ty : lookupL (clear_typing (set_typing st g u name phi).1 g u phi).1.typing_users g =
      some ((addElem ((lookupL st.typing_users g).getD []) u).erase u) := by
    rw [e2]
    exact lookupL_setKey_self _ _ _
  have h2lc : list_connections (clear_typing (set_typing st g u name phi).1 g u phi).1 g =
      list_connections st g := by
    rw [e2]
    exact h1lc
  have hlv2 : ∀ d ∈ list_connections (clear_typing (set_typing st g u name phi).1 g u phi).1 g,
      phi d = false := by
    intro d hd
    rw [h2lc] at hd
    exact hlive d hd
  have hnotmem : u ∉ (addElem ((lookupL st.typing_users g).getD []) u).erase u := by
    intro hmem2
    have := (List.Nodup.mem_erase_iff (nodup_addElem _ _ hts0Nodup)).mp hmem2
    exact this.1 rfl
  have herase2 : ((addElem ((lookupL st.typing_users g).getD []) u).erase u).erase u =
      (addElem ((lookupL st.typing_users g).getD []) u).erase u :=
    List.erase_of_not_mem hnotmem
  have hstep3 := clear_typing_live (clear_typing (set_typing st g u name phi).1 g u phi).1
    g u phi ((addElem ((lookupL st.typing_users g).getD []) u).erase u) h2ty hlv2
  refine ⟨?_, ?_, ?_, ?_, ?_⟩
  · unfold get_typing_users
    rw [h2ty]
    simpa using hnotmem
  · rw [hstep3]
  · rw [hstep3]
  · rw [hstep3]
    dsimp only
    rw [herase2]
    exact setKey_same _ _ _ h2ty
  · rw [hstep3]

theorem C8_amended_witness :
    "bob" ∉ get_typing_users (clear_typing (set_typing
      (⟨[("R", [1])], [(1, ("alice", "R"))], [], 1⟩ : MState) "R" "bob" "Bob" phiNone).1
      "R" "bob" phiNone).1 "R" ∧
    (clear_typing (clear_typing (set_typing
      (⟨[("R", [1])], [(1, ("alice", "R"))], [], 1⟩ : MState) "R" "bob" "Bob" phiNone).1
      "R" "bob" phiNone).1 "R" "bob" phiNone).2 =
      (list_connections (clear_typing (set_typing
        (⟨[("R", [1])], [(1, ("alice", "R"))], [], 1⟩ : MState) "R" "bob" "Bob" phiNone).1
        "R" "bob" phiNone).1 "R").map
        (fun d => TraceEntry.sent d (typingStopMsg "bob"
          (clear_typing (set_typing
            (⟨[("R", [1])], [(1, ("alice", "R"))], [], 1⟩ : MState) "R" "bob" "Bob" phiNone).1
            "R" "bob" phiNone).1.clock)) :=
  ⟨(C8_amended _ "R" "bob" "Bob" phiNone (by decide) (by decide)).1,
   (C8_amended _ "R" "bob" "Bob" phiNone (by decide) (by decide)).2.2.2.2⟩

/- Every outbound event constructor yields a type tag and an ISO string
   timestamp (in "edited_at" for message_edited). -/

theorem WFout_userOnlineMsg (u : String) (t : Nat) : WFout (userOnlineMsg u t) :=
  ⟨⟨"user_online", rfl⟩, ⟨isoformat t, Or.inl rfl⟩⟩

theorem WFout_userOfflineMsg (u : String) (t : Nat) : WFout (userOfflineMsg u t) :=
  ⟨⟨"user_offline", rfl⟩, ⟨isoformat t, Or.inl rfl⟩⟩

theorem WFout_newMessageMsg (p : InVal) (t : Nat) : WFout (newMessageMsg p t) :=
  ⟨⟨"new_message", rfl⟩, ⟨isoformat t, Or.inl rfl⟩⟩

theorem WFout_messageEditedMsg (mid content : String) (t : Nat) :
    WFout (messageEditedMsg mid content t) :=
  ⟨⟨"message_edited", rfl⟩, ⟨isoformat t, Or.inr rfl⟩⟩

theorem WFout_messageDeletedMsg (mid : String) (t : Nat) :
    WFout (messageDeletedMsg mid t) :=
  ⟨⟨"message_deleted", rfl⟩, ⟨isoformat t, Or.inl rfl⟩⟩

theorem WFout_typingStartMsg (u name : String) (t : Nat) :
    WFout (typingStartMsg u name t) :=
  ⟨⟨"typing_start", rfl⟩, ⟨isoformat t, Or.inl rfl⟩⟩

theorem WFout_typingStopMsg (u : String) (t : Nat) : WFout (typingStopMsg u t) :=
  ⟨⟨"typing_stop", rfl⟩, ⟨isoformat t, Or.inl rfl⟩⟩

theorem WFout_memberJoinedMsg (userData : InVal) (t : Nat) :
    WFout (memberJoinedMsg userData t) :=
  ⟨⟨"member_joined", rfl⟩, ⟨isoformat t, Or.inl rfl⟩⟩

theorem WFout_memberLeftMsg (u : String) (t : Nat) : WFout (memberLeftMsg u t) :=
  ⟨⟨"member_left", rfl⟩, ⟨isoformat t, Or.inl rfl⟩⟩

theorem WFout_reactionUpdateMsg (mid emoji uid action : String) (t : Nat) :
    WFout (reactionUpdateMsg mid emoji uid action t) :=
  ⟨⟨"reaction_update", rfl⟩, ⟨isoformat t, Or.inl rfl⟩⟩

theorem WFout_pinMsg (mid : String) (isPinned : Bool) (uid : String) (t : Nat) :
    WFout (pinMsg mid isPinned uid t) :=
  ⟨⟨if isPinned then "message_pinned" else "message_unpinned", rfl⟩,
   ⟨isoformat t, Or.inl rfl⟩⟩

theorem WFout_pollMsg (pollData : InVal) (action : String) (t : Nat) :
    WFout (pollMsg pollData action t) :=
  ⟨⟨"poll_" ++ action, rfl⟩, ⟨isoformat t, Or.inl rfl⟩⟩

theorem WFout_pollVoteMsg (pid uid : String) (t : Nat) : WFout (pollVoteMsg pid uid t) :=
  ⟨⟨"poll_vote", rfl⟩, ⟨isoformat t, Or.inl rfl⟩⟩

theorem WFout_messageReadMsg (mid uid : String) (t : Nat) :
    WFout (messageReadMsg mid uid t) :=
  ⟨⟨"message_read", rfl⟩, ⟨isoformat t, Or.inl rfl⟩⟩

theorem WFout_mentionMsg (mid : String) (t : Nat) : WFout (mentionMsg mid t) :=
  ⟨⟨"mention", rfl⟩, ⟨isoformat t, Or.inl rfl⟩⟩

/-- Every send attempted by the engine carries a well-formed event,
    provided the broadcast jobs seeded into it do (the engine itself only
    adds user_offline events, which are well formed). -/
theorem run_WFout : ∀ (st : MState) (jobs : List Job) (phi : Nat → Bool) (locked : Bool),
    (∀ j ∈ jobs, ∀ g2 m2 e2, j = Job.bcast g2 m2 e2 → WFout m2) →
    ∀ en ∈ (run st jobs phi locked).2, ∀ m2, entryMsg en = some m2 → WFout m2 := by
  intro st jobs phi locked
  induction st, jobs, phi, locked using run.induct with
  | case1 st phi locked =>
      intro _ en hen
      rw [run_nil] at hen
      simp at hen
  | case2 st phi locked g m e rest hlook ih =>
      intro hjobs en hen
      rw [run_bcast_none _ _ _ _ _ _ _ hlook] at hen
      exact ih (fun j hj => hjobs j (List.mem_cons_of_mem _ hj)) en hen
  | case3 st phi locked g m e rest conns hlook targets dead ih =>
      intro hjobs en hen
      rw [run_bcast_some _ _ _ _ _ _ _ _ hlook] at hen
      rcases List.mem_append.mp hen with h1 | h1
      · intro m2 hm2
        have hm : WFout m := hjobs _ (List.mem_cons_self _ _) g m e rfl
        rcases List.mem_map.mp h1 with ⟨d, _, hde⟩
        rw [← hde] at hm2
        by_cases hphi : phi d
        · rw [if_pos hphi] at hm2
          simp [entryMsg] at hm2
          rw [← hm2]
          exact hm
        · rw [if_neg hphi] at hm2
          simp [entryMsg] at hm2
          rw [← hm2]
          exact hm
      · refine ih ?_ en h1
        intro j hj g2 m2 e2 hj2
        rcases List.mem_append.mp hj with h2 | h2
        · rcases List.mem_map.mp h2 with ⟨d2, _, hd2⟩
          rw [← hd2] at hj2
          cases hj2
        · exact hjobs j (List.mem_cons_of_mem _ h2) g2 m2 e2 hj2
  | case4 st phi d rest =>
      intro _ en hen
      rw [run_disc_locked] at hen
      simp only [List.mem_singleton] at hen
      intro m2 hm2
      rw [hen] at hm2
      simp [entryMsg] at hm2
  | case5 st phi d rest hlook ih =>
      intro hjobs en hen
      rw [run_disc_none _ _ _ _ hlook] at hen
      exact ih (fun j hj => hjobs j (List.mem_cons_of_mem _ hj)) en hen
  | case6 st phi d rest p hlook ih =>
      intro hjobs en hen
      rw [run_disc_some _ _ _ _ _ hlook] at hen
      refine ih ?_ en hen
      intro j hj g2 m2 e2 hj2
      rcases List.mem_cons.mp hj with h1 | h1
      · rw [h1] at hj2
        injection hj2 with a1 a2 a3
        rw [← a2]
        exact WFout_userOfflineMsg _ _
      · rcases List.mem_cons.mp h1 with h3 | h3
        · rw [h3] at hj2
          cases hj2
        · exact hjobs j (List.mem_cons_of_mem _ h3) g2 m2 e2 hj2
  | case7 st phi locked rest ih =>
      intro hjobs en hen
      rw [run_rel] at hen
      exact ih (fun j hj => hjobs j (List.mem_cons_of_mem _ hj)) en hen

/-- A single seeded broadcast of a well-formed event only ever sends
    well-formed events. -/
theorem bcast_trace_WFout (st : MState) (g : String) (m : Msg) (e : Option Nat)
    (phi : Nat → Bool) (locked : Bool) (hm : WFout m) :
    ∀ en ∈ (run st [Job.bcast g m e] phi locked).2,
      ∀ m2, entryMsg en = some m2 → WFout m2 := by
  refine run_WFout st _ phi locked ?_
  intro j hj g2 m2 e2 hj2
  rw [List.mem_singleton] at hj
  rw [hj] at hj2
  injection hj2 with a1 a2 a3
  rw [← a2]
  exact hm

/-- C9 counterexample: the claim says every outbound event's timestamp
    is milliseconds since epoch.  The broadcast events are built with
    datetime.utcnow().isoformat() — an ISO-8601 STRING: the new_message
    event delivered by broadcast_message at a concrete state has a string
    in its "timestamp" field, so no natural number of milliseconds is its
    value. -/
theorem C9_counterexample :
    TraceEntry.sent 1 (newMessageMsg InVal.null 1) ∈
      (broadcast_message (⟨[("R", [1])], [(1, ("u", "R"))], [], 1⟩ : MState) "R"
        InVal.null phiNone).2 ∧
    ¬ hasMillisTimestamp (newMessageMsg InVal.null 1) := by
  constructor
  · simp +decide [broadcast_message, broadcast_to_group, bumpClock, run_bcast_some,
      run_nil, lookupL, bTargets, phiNone]
  · rintro ⟨n, hn⟩
    simp [newMessageMsg, lookupL] at hn

/-- C9 (amended): every outbound event produced by the broadcast
    operations (fan-out broadcasts, the recursive user_offline
    notifications of the failure path, and the send_to_user mention
    notification) carries a string event-kind tag in its "type" field and
    a server-generated ISO-8601 timestamp STRING — in the "timestamp"
    field for all kinds except message_edited, which names it
    "edited_at"; the route-level dispatch produces only such events,
    except the pong reply, which carries no timestamp. -/
theorem C9_amended :
    (∀ (st : MState) (g : String) (m : Msg) (e : Option Nat) (phi : Nat → Bool),
      WFout m → ∀ en ∈ (broadcast_to_group st g m e phi).2,
      ∀ m2, entryMsg en = some m2 → WFout m2) ∧
    (∀ (st : MState) (ws : Nat) (g u : String) (phi : Nat → Bool),
      ∀ en ∈ (connect st ws g u phi).2, ∀ m2, entryMsg en = some m2 → WFout m2) ∧
    (∀ (st : MState) (ws : Nat) (phi : Nat → Bool),
      ∀ en ∈ (disconnect st ws phi).2, ∀ m2, entryMsg en = some m2 → WFout m2) ∧
    (∀ (st : MState) (g : String) (p : InVal) (phi : Nat → Bool),
      ∀ en ∈ (broadcast_message st g p phi).2, ∀ m2, entryMsg en = some m2 → WFout m2) ∧
    (∀ (st : MState) (g mid content : String) (phi : Nat → Bool),
      ∀ en ∈ (broadcast_message_edit st g mid content phi).2,
      ∀ m2, entryMsg en = some m2 → WFout m2) ∧
    (∀ (st : MState) (g mid : String) (phi : Nat → Bool),
      ∀ en ∈ (broadcast_message_delete st g mid phi).2,
      ∀ m2, entryMsg en = some m2 → WFout m2) ∧
    (∀ (st : MState) (g u name : String) (phi : Nat → Bool),
      ∀ en ∈ (set_typing st g u name phi).2, ∀ m2, entryMsg en = some m2 → WFout m2) ∧
    (∀ (st : MState) (g u : String) (phi : Nat → Bool),
      ∀ en ∈ (clear_typing st g u phi).2, ∀ m2, entryMsg en = some m2 → WFout m2) ∧
    (∀ (st : MState) (g : String) (userData : InVal) (phi : Nat → Bool),
      ∀ en ∈ (broadcast_member_joined st g userData phi).2,
      ∀ m2, entryMsg en = some m2 → WFout m2) ∧
    (∀ (st : MState) (g u : String) (phi : Nat → Bool),
      ∀ en ∈ (broadcast_member_left st g u phi).2,
      ∀ m2, entryMsg en = some m2 → WFout m2) ∧
    (∀ (st : MState) (g mid emoji uid action : String) (phi : Nat → Bool),
      ∀ en ∈ (broadcast_reaction st g mid emoji uid action phi).2,
      ∀ m2, entryMsg en = some m2 → WFout m2) ∧
    (∀ (st : MState) (g mid : String) (isPinned : Bool) (uid : String) (phi : Nat → Bool),
      ∀ en ∈ (broadcast_pin st g mid isPinned uid phi).2,
      ∀ m2, entryMsg en = some m2 → WFout m2) ∧
    (∀ (st : MState) (g : String) (pollData : InVal) (action : String) (phi : Nat → Bool),
      ∀ en ∈ (broadcast_poll st g pollData action phi).2,
      ∀ m2, entryMsg en = some m2 → WFout m2) ∧
    (∀ (st : MState) (g pid uid : String) (phi : Nat → Bool),
      ∀ en ∈ (broadcast_poll_vote st g pid uid phi).2,
      ∀ m2, entryMsg en = some m2 → WFout m2) ∧
    (∀ (st : MState) (g mid uid : String) (phi : Nat → Bool),
      ∀ en ∈ (broadcast_read st g mid uid phi).2,
      ∀ m2, entryMsg en = some m2 → WFout m2) ∧
    (∀ (st : MState) (g mid mentioned : String) (phi : Nat → Bool),
      ∀ en ∈ broadcast_mention st g mid mentioned phi,
      ∀ m2, entryMsg en = some m2 → WFout m2) ∧
    (∀ (st : MState) (g u un : String) (ws : Nat) (frame : List (String × InVal))
      (persist : Option InVal) (phi : Nat → Bool),
      ∀ en ∈ (handleFrame st g u un ws frame persist phi).2.1,
      ∀ m2, entryMsg en = some m2 → WFout m2 ∨ m2 = pongMsg) := by
  have hdisc : ∀ (st : MState) (ws : Nat) (phi : Nat → Bool),
      ∀ en ∈ (disconnect st ws phi).2, ∀ m2, entryMsg en = some m2 → WFout m2 := by
    intro st ws phi en hen
    refine run_WFout st _ phi false ?_ en hen
    intro j hj g2 m2 e2 hj2
    rw [List.mem_singleton] at hj
    rw [hj] at hj2
    cases hj2
  refine ⟨?_, ?_, hdisc, ?_, ?_, ?_, ?_, ?_, ?_, ?_, ?_, ?_, ?_, ?_, ?_, ?_, ?_⟩
  · intro st g m e phi hm en hen
    exact bcast_trace_WFout st g m e phi false hm en hen
  · intro st ws g u phi en hen
    exact bcast_trace_WFout _ _ _ _ _ _ (WFout_userOnlineMsg _ _) en hen
  · intro st g p phi en hen
    exact bcast_trace_WFout _ _ _ _ _ _ (WFout_newMessageMsg _ _) en hen
  · intro st g mid content phi en hen
    exact bcast_trace_WFout _ _ _ _ _ _ (WFout_messageEditedMsg _ _ _) en hen
  · intro st g mid phi en hen
    exact bcast_trace_WFout _ _ _ _ _ _ (WFout_messageDeletedMsg _ _) en hen
  · intro st g u name phi en hen
    exact bcast_trace_WFout _ _ _ _ _ _ (WFout_typingStartMsg _ _ _) en hen
  · intro st g u phi en hen
    exact bcast_trace_WFout _ _ _ _ _ _ (WFout_typingStopMsg _ _) en hen
  · intro st g userData phi en hen
    exact bcast_trace_WFout _ _ _ _ _ _ (WFout_memberJoinedMsg _ _) en hen
  · intro st g u phi en hen
    exact bcast_trace_WFout _ _ _ _ _ _ (WFout_memberLeftMsg _ _) en hen
  · intro st g mid emoji uid action phi en hen
    exact bcast_trace_WFout _ _ _ _ _ _ (WFout_reactionUpdateMsg _ _ _ _ _) en hen
  · intro st g mid isPinned uid phi en hen
    exact bcast_trace_WFout _ _ _ _ _ _ (WFout_pinMsg _ _ _ _) en hen
  · intro st g pollData action phi en hen
    exact bcast_trace_WFout _ _ _ _ _ _ (WFout_pollMsg _ _ _) en hen
  · intro st g pid uid phi en hen
    exact bcast_trace_WFout _ _ _ _ _ _ (WFout_pollVoteMsg _ _ _) en hen
  · intro st g mid uid phi en hen
    exact bcast_trace_WFout _ _ _ _ _ _ (WFout_messageReadMsg _ _ _) en hen
  · intro st g mid mentioned phi en hen m2 hm2
    unfold broadcast_mention send_to_user at hen
    revert hen
    cases hlook : lookupL st.group_connections g with
    | none =>
        intro hen
        simp at hen
    | some conns =>
        intro hen
        rcases List.mem_filterMap.mp hen with ⟨c, _, hf⟩
        revert hf
        cases hinfo2 : lookupL st.connection_info c with
        | none =>
            intro hf
            cases hf
        | some q =>
            intro hf
            dsimp only at hf
            by_cases hq : q.1 = mentioned
            · rw [if_pos hq] at hf
              injection hf with hf2
              rw [← hf2] at hm2
              by_cases hp : phi c
              · rw [if_pos hp] at hm2
                simp [entryMsg] at hm2
                rw [← hm2]
                exact WFout_mentionMsg _ _
              · rw [if_neg hp] at hm2
                simp [entryMsg] at hm2
                rw [← hm2]
                exact WFout_mentionMsg _ _
            · rw [if_neg hq] at hf
              cases hf
  · intro st g u un ws frame persist phi en hen m2 hm2
    unfold handleFrame at hen
    split at hen
    · -- "message"
      split at hen
      · simp at hen
      · split at hen
        · simp at hen
        · split at hen
          · -- persist = none: the frame is dropped or only db-called
            dsimp only at hen
            split at hen
            · simp at hen
            · simp at hen
              rw [hen] at hm2
              simp [entryMsg] at hm2
          · -- persist = some: dbSend, then new_message, then typing_stop
            dsimp only at hen
            split at hen
            · simp at hen
            · simp only [List.cons_append, List.nil_append, List.mem_cons,
                List.mem_append] at hen
              rcases hen with hen | hen | hen
              · rw [hen] at hm2
                simp [entryMsg] at hm2
              · exact Or.inl (bcast_trace_WFout _ _ _ _ _ _ (WFout_newMessageMsg _ _) en hen m2 hm2)
              · exact Or.inl (bcast_trace_WFout _ _ _ _ _ _ (WFout_typingStopMsg _ _) en hen m2 hm2)
    · exact Or.inl (bcast_trace_WFout _ _ _ _ _ _ (WFout_typingStartMsg _ _ _) en hen m2 hm2)
    · exact Or.inl (bcast_trace_WFout _ _ _ _ _ _ (WFout_typingStopMsg _ _) en hen m2 hm2)
    · -- "read"
      split at hen
      · split at hen
        · simp at hen
          rcases hen with hen | hen
          · rw [hen] at hm2
            simp [entryMsg] at hm2
          · rw [hen] at hm2
            simp [entryMsg] at hm2
        · simp at hen
      · simp at hen
    · -- "ping"
      rw [List.mem_singleton] at hen
      rw [hen] at hm2
      by_cases hp : phi ws
      · rw [if_pos hp] at hm2
        simp [entryMsg] at hm2
        exact Or.inr hm2.symm
      · rw [if_neg hp] at hm2
        simp [entryMsg] at hm2
        exact Or.inr hm2.symm
    · simp at hen

theorem C9_witness : WFout (newMessageMsg InVal.null 1) := by
  have hmem : TraceEntry.sent 1 (newMessageMsg InVal.null 1) ∈
      (broadcast_message (⟨[("R", [1])], [(1, ("u", "R"))], [], 1⟩ : MState) "R"
        InVal.null phiNone).2 := by
    simp +decide [broadcast_message, broadcast_to_group, bumpClock, run_bcast_some,
      run_nil, lookupL, bTargets, phiNone]
  exact C9_amended.2.2.2.1 _ "R" InVal.null phiNone _ hmem _ rfl

/-- A live, non-excluded room member always receives the broadcast event
    in the initial fan-out loop, whatever happens to other connections. -/
theorem run_bcast_sends_live (st : MState) (g : String) (m : Msg) (e : Option Nat)
    (phi : Nat → Bool) (locked : Bool) (conns : List Nat) (c : Nat)
    (h : lookupL st.group_connections g = some conns)
    (hc : c ∈ conns) (hce : some c ≠ e) (hlive : phi c = false) :
    TraceEntry.sent c m ∈ (run st [Job.bcast g m e] phi locked).2 := by
  rw [run_bcast_some _ _ _ _ _ _ _ _ h]
  refine List.mem_append.mpr (Or.inl ?_)
  refine List.mem_map.mpr ⟨c, ?_, ?_⟩
  · rw [mem_bTargets]
    exact ⟨hc, hce⟩
  · simp [hlive]

/-- clear_typing leaves the typing list of its room free of the cleared
    user (the typing sets of an invariant state hold no duplicates, and
    the engine never adds typing entries). -/
theorem clear_typing_not_mem (x : MState) (g u : String) (phi : Nat → Bool)
    (hInv : Inv x) : u ∉ get_typing_users (clear_typing x g u phi).1 g := by
  obtain ⟨_, _, hty, _, htymem⟩ := hInv
  unfold clear_typing
  refine run_typing_not_mem g u _ _ phi false ?_
  unfold get_typing_users
  dsimp only
  cases ht : lookupL x.typing_users g with
  | none =>
      rw [ht]
      simp
  | some ts =>
      dsimp only
      rw [lookupL_setKey_self]
      intro hmem
      simp only [Option.getD_some] at hmem
      have hnd : ts.Nodup := by simpa using htymem _ (lookupL_mem _ _ _ ht)
      exact ((List.Nodup.mem_erase_iff hnd).mp hmem).1 rfl

/-- C7: dispatch of an inbound send-message frame.  If the content trims
    to the empty string the frame is silently dropped: no database call,
    no broadcast, no state change, loop continues.  If the content is
    non-empty and the Chat Application Service persists it, the stored
    message is broadcast to the room as a new_message event (delivered to
    every live member) and then the sender's user identifier is removed
    from the room's typing set; the trace is exactly the persistence
    call, then the new_message broadcast, then the typing_stop broadcast.
    If persistence fails (returns nothing), the persistence call is made
    but no broadcast occurs and the state is unchanged. -/
theorem C7_send_message (st : MState) (g u un : String) (ws : Nat)
    (frame d : List (String × InVal)) (persist : Option InVal) (phi : Nat → Bool)
    (hty : getTypeStr frame = some "message")
    (hdata : frameData frame = some d) :
    (∀ s, contentVal d = some s → pyStrip s = "" →
      handleFrame st g u un ws frame persist phi = (st, [], true)) ∧
    (∀ s p, contentVal d = some s → pyStrip s ≠ "" → persist = some p → Inv st →
      "typing" = "typing" →
      handleFrame st g u un ws frame persist phi =
        ((clear_typing (broadcast_message st g p phi).1 g u phi).1,
         TraceEntry.dbSend g u (pyStrip s) (messageTypeVal d) (replyToVal d) ::
           ((broadcast_message st g p phi).2 ++
            (clear_typing (broadcast_message st g p phi).1 g u phi).2),
         true) ∧
      u ∉ get_typing_users (handleFrame st g u un ws frame persist phi).1 g ∧
      (∀ c ∈ list_connections st g, phi c = false →
        TraceEntry.sent c (newMessageMsg p st.clock) ∈
          (handleFrame st g u un ws frame persist phi).2.1)) ∧
    (∀ s, contentVal d = some s → pyStrip s ≠ "" → persist = none →
      handleFrame st g u un ws frame persist phi =
        (st, [TraceEntry.dbSend g u (pyStrip s) (messageTypeVal d) (replyToVal d)], true)) := by
  refine ⟨?_, ?_, ?_⟩
  · intro s hcontent hempty
    unfold handleFrame
    repeat' (first | split | dsimp only)
    all_goals simp_all
  · intro s p hcontent hne hpersist hInv _
    have heval : handleFrame st g u un ws frame persist phi =
        ((clear_typing (broadcast_message st g p phi).1 g u phi).1,
         TraceEntry.dbSend g u (pyStrip s) (messageTypeVal d) (replyToVal d) ::
           ((broadcast_message st g p phi).2 ++
            (clear_typing (broadcast_message st g p phi).1 g u phi).2),
         true) := by
      unfold handleFrame
      repeat' (first | split | dsimp only)
      all_goals simp_all
    refine ⟨heval, ?_, ?_⟩
    · rw [heval]
      exact clear_typing_not_mem _ g u phi (Inv_broadcast_message st g p phi hInv)
    · intro c hc hlive
      rw [heval]
      refine List.mem_cons_of_mem _ (List.mem_append.mpr (Or.inl ?_))
      unfold list_connections at hc
      revert hc
      cases hg : lookupL st.group_connections g with
      | none =>
          intro hc
          simp at hc
      | some conns =>
          intro hc
          simp only [Option.getD_some] at hc
          exact run_bcast_sends_live (bumpClock st) g (newMessageMsg p st.clock) none
            phi false conns c hg hc (by simp) hlive
  · intro s hcontent hne hpersist
    unfold handleFrame
    repeat' (first | split | dsimp only)
    all_goals simp_all

theorem C7_witness :
    "u" ∉ get_typing_users (handleFrame
      (⟨[("R", [1, 2])], [(1, ("u", "R")), (2, ("v", "R"))], [("R", ["u"])], 5⟩ : MState)
      "R" "u" "U" 1 [("type", InVal.str "message"), ("content", InVal.str "  hi ")]
      (some (InVal.dict [])) phiNone).1 "R" ∧
    TraceEntry.sent 2 (newMessageMsg (InVal.dict []) 5) ∈
      (handleFrame
        (⟨[("R", [1, 2])], [(1, ("u", "R")), (2, ("v", "R"))], [("R", ["u"])], 5⟩ : MState)
        "R" "u" "U" 1 [("type", InVal.str "message"), ("content", InVal.str "  hi ")]
        (some (InVal.dict [])) phiNone).2.1 := by
  have h := (C7_send_message
    (⟨[("R", [1, 2])], [(1, ("u", "R")), (2, ("v", "R"))], [("R", ["u"])], 5⟩ : MState)
    "R" "u" "U" 1 [("type", InVal.str "message"), ("content", InVal.str "  hi ")]
    [("type", InVal.str "message"), ("content", InVal.str "  hi ")]
    (some (InVal.dict [])) phiNone rfl rfl).2.1 "  hi " (InVal.dict []) rfl (by decide)
    rfl (by decide) rfl
  exact ⟨h.2.1, h.2.2 2 (by decide) (by decide)⟩

/- ------------------------------------------------------------------ -/
/- The broadcast-failure cleanup path (claim C1).                     -/
/- ------------------------------------------------------------------ -/

/-- A reachable state with two dead connections of one user: room "R"
    holds connections 1 and 2, both of user "u", and connection 3 of
    user "v". -/
def offSt : MState :=
  ⟨[("R", [1, 2, 3])], [(1, ("u", "R")), (2, ("u", "R")), (3, ("v", "R"))], [], 3⟩

/-- C1 (code bug): broadcast_to_group collects the dead connections and
    calls disconnect for each (line 95), and disconnect holds the
    non-reentrant asyncio.Lock across its whole body, including the
    recursive user_offline broadcast (lines 45-68).  With two dead
    connections of user "u" in the room (the reachable state offSt, dead
    set phiTwoDead), the first cleanup's inner broadcast hits the second
    dead connection and issues a nested disconnect while the task still
    holds the lock: the await blocks forever.  The broadcast call never
    completes (the trace ends in the deadlock marker), connection 2 is
    never deregistered (its record survives in connection_info and it
    stays in the room's membership set), and the remaining live
    connection 3 receives the user_offline event for "u" only once — so
    the specified cleanup contract (deregister every failed connection
    exactly once and notify the room for each) is unachievable whenever
    one broadcast finds two dead connections. -/
theorem C1_code_bug :
    Reachable offSt ∧
    phiTwoDead 1 = true ∧ phiTwoDead 2 = true ∧ phiTwoDead 3 = false ∧
    broadcast_to_group offSt "R" (messageDeletedMsg "x" 99) none phiTwoDead =
      (⟨[("R", [2, 3])], [(2, ("u", "R")), (3, ("v", "R"))], [], 4⟩,
       [TraceEntry.failed 1 (messageDeletedMsg "x" 99),
        TraceEntry.failed 2 (messageDeletedMsg "x" 99),
        TraceEntry.sent 3 (messageDeletedMsg "x" 99),
        TraceEntry.failed 2 (userOfflineMsg "u" 3),
        TraceEntry.sent 3 (userOfflineMsg "u" 3),
        TraceEntry.deadlock]) ∧
    lookupL (broadcast_to_group offSt "R" (messageDeletedMsg "x" 99) none
      phiTwoDead).1.connection_info 2 = some ("u", "R") ∧
    (2 : Nat) ∈ list_connections
      (broadcast_to_group offSt "R" (messageDeletedMsg "x" 99) none phiTwoDead).1
      "R" ∧
    countOffU "u" 3
      (broadcast_to_group offSt "R" (messageDeletedMsg "x" 99) none phiTwoDead).2
      = 1 := by
  have heq : broadcast_to_group offSt "R" (messageDeletedMsg "x" 99) none phiTwoDead =
      (⟨[("R", [2, 3])], [(2, ("u", "R")), (3, ("v", "R"))], [], 4⟩,
       [TraceEntry.failed 1 (messageDeletedMsg "x" 99),
        TraceEntry.failed 2 (messageDeletedMsg "x" 99),
        TraceEntry.sent 3 (messageDeletedMsg "x" 99),
        TraceEntry.failed 2 (userOfflineMsg "u" 3),
        TraceEntry.sent 3 (userOfflineMsg "u" 3),
        TraceEntry.deadlock]) := by
    simp +decide [broadcast_to_group, run_bcast_some, run_bcast_none, run_disc_some,
      run_disc_none, run_disc_locked, run_rel, run_nil, lookupL, setKey, eraseKey,
      addElem, bTargets, offSt, phiTwoDead, discState, userOfflineMsg,
      messageDeletedMsg, isoformat]
  refine ⟨?_, by decide, by decide, by decide, heq, ?_, ?_, ?_⟩
  · have h1 : lookupL (connect initState 1 "R" "u" phiNone).1.connection_info 2 =
        none := by
      simp +decide [connect_def, run_bcast_some, run_bcast_none, run_nil, lookupL,
        setKey, addElem, bTargets, connectState, bumpClock, initState, phiNone]
    have h2 : lookupL (connect (connect initState 1 "R" "u" phiNone).1 2 "R" "u"
        phiNone).1.connection_info 3 = none := by
      simp +decide [connect_def, run_bcast_some, run_bcast_none, run_nil, lookupL,
        setKey, addElem, bTargets, connectState, bumpClock, initState, phiNone]
    have hst : (connect (connect (connect initState 1 "R" "u" phiNone).1 2 "R" "u"
        phiNone).1 3 "R" "v" phiNone).1 = offSt := by
      simp +decide [connect_def, run_bcast_some, run_bcast_none, run_disc_some,
        run_disc_none, run_nil, lookupL, setKey, eraseKey, addElem, bTargets,
        connectState, bumpClock, initState, phiNone, discState, offSt]
    rw [← hst]
    exact Reachable.connect_step _ 3 "R" "v" phiNone
      (Reachable.connect_step _ 2 "R" "u" phiNone
        (Reachable.connect_step initState 1 "R" "u" phiNone Reachable.init
          (by decide)) h1) h2
  · rw [heq]
    decide
  · rw [heq]
    decide
  · rw [heq]
    decide

end GroupChat
